import Mathlib

/-!
Shallow embedding of the SongLang core runtime (packages/core/src/runtime:
Node.ts, Graph.ts, Interpreter.ts; AST shapes from parser/Expression.ts and
parser/Statement.ts), with theorems checking the specification claims.

Modelling conventions:
* JS numbers are modelled as `ℚ` (exact arithmetic; `Math.floor` is `Rat.floor`).
* Nodes are identified by their unique graph name; object references become
  names.  `Map` objects become insertion-ordered association lists.
* In-place mutation of a compound property value obtained through the
  inherited `getProperty` walk (a `Set`/array owned by some node of the
  prototype chain) is modelled by locating the owning node with
  `getPropertyOwner` and updating that node's property.
* General recursion over the (possibly cyclic) parent graph and over stored
  `_DoBody` statement lists is made total with an explicit fuel argument;
  exhausting fuel yields a distinguished `timeout` result that corresponds to
  non-termination of the TypeScript original.
* Thrown exceptions become `err` results that carry the state at the point of
  the throw (the TypeScript interpreter object survives a throw).
* `Math.random()` draws are supplied by an oracle `rng : Nat → ℚ` indexed by a
  draw counter `rix`; each draw is expected to land in `[0, 1)`.
* Source line/column fields, which only feed error messages, are omitted.
-/

namespace SongLang

/-- Binary operators of the expression AST (parser/Expression.ts `BinaryOperator`). -/
inductive BinaryOperator where
  | add | subtract | multiply | divide | modulo
  | equal | notEqual | lessThan | greaterThan | lessEqual | greaterEqual
  | land | lor
deriving DecidableEq

/-- Unary operators (parser/Expression.ts `UnaryOperator`). -/
inductive UnaryOperator where
  | negate | lnot
deriving DecidableEq

/-- Expression AST (parser/Expression.ts `Expression`, 8 variants). -/
inductive Expr where
  | num : ℚ → Expr
  | str : String → Expr
  | ident : String → Expr
  | propAccess : Expr → String → Expr
  | binary : Expr → BinaryOperator → Expr → Expr
  | unary : UnaryOperator → Expr → Expr
  | grouping : Expr → Expr
  | random : Expr → Expr → Expr

/-- A literal argument of a relation statement.  The parser pushes identifier
lexemes and string values (strings) and number values into `arguments`. -/
inductive Lit where
  | s : String → Lit
  | n : ℚ → Lit
deriving DecidableEq

/-- `LosesType` from parser/Statement.ts. -/
inductive LosesType where
  | auto | isTy
deriving DecidableEq

/-- `DebugTarget` from parser/Statement.ts. -/
inductive DebugTarget where
  | graph | tokens | ast
deriving DecidableEq

/-- `QueryPattern` from parser/Statement.ts. -/
structure QueryPattern where
  isWildcard : Bool
  variableName : Option String

mutual

/-- Statement AST (parser/Statement.ts `Statement`, 15 variants).
`relation` carries subject, relation name and argument literals; missing
arguments are modelled by list positions past the end (JS `undefined`). -/
inductive Stmt where
  | relation : String → String → List Lit → Stmt
  | hasExpression : String → String → Expr → Stmt
  | expressionPrint : Expr → Stmt
  | expressionHas : Expr → String → Option Lit → Option Expr → Stmt
  | roleDefinition : String → String → Stmt
  | doBlock : String → List Stmt → Stmt
  | can : String → String → Stmt
  | loses : String → String → LosesType → Stmt
  | debug : DebugTarget → Stmt
  | whenStmt : Stmt → List Stmt → Stmt
  | whenExpression : WhenExpr → Stmt
  | chance : Expr → List Stmt → Option (List Stmt) → Stmt
  | all : String → Option String → Option Stmt → Stmt
  | each : String → String → List Stmt → Stmt
  | query : QueryPattern → String → Option String → Option Lit → Option Expr → Stmt

/-- `WhenExpressionStatement`: subject, condition, body, elseBody, elseWhen. -/
inductive WhenExpr where
  | mk : String → Expr → List Stmt → Option (List Stmt) → Option WhenExpr → WhenExpr

end

/-- Runtime values (spec §3 Value).  Node references are node names; a
`strSet` is the insertion-ordered content of a JS `Set<string>`; `stmts` is a
stored `_DoBody`; `nodes` an `_Items` list; `roles` a `_Roles` list.
Reference identity of compound values is not tracked; each such value is
owned by exactly one node (see `getPropertyOwner`). -/
inductive Value where
  | num : ℚ → Value
  | str : String → Value
  | bool : Bool → Value
  | null : Value
  | node : String → Value
  | strSet : List String → Value
  | stmts : List Stmt → Value
  | nodes : List String → Value
  | roles : List String → Value

/-- A node record (runtime/Node.ts `SongNode`): parent names in insertion
order, properties as an insertion-ordered map. -/
structure NodeRec where
  parents : List String
  props : List (String × Value)

abbrev Graph := List (String × NodeRec)
abbrev Ctx := List (String × Value)

/-- Error taxonomy (runtime/SongError.ts `ErrorType`). -/
inductive ErrorType where
  | nodeNotFound | propertyNotFound | typeMismatch | invalidCondition
  | divisionByZero | invalidOperand | cannotPerform | syntaxError
  | unexpectedToken | runtimeError
deriving DecidableEq

/-- A thrown exception: a `SongError` with its type, an `InterpreterError`,
or a native JS `TypeError` caused by a duck-typing failure on a mistyped
internal property (not reachable from well-typed internal state). -/
inductive SongErr where
  | songError : ErrorType → SongErr
  | interpreterError : SongErr
  | nativeTypeError : SongErr
deriving DecidableEq

/-- `Map.get` (first, and only, binding of a key). -/
def lookupAssoc {α : Type} : List (String × α) → String → Option α
  | [], _ => none
  | (k', v) :: rest, k => if k' = k then some v else lookupAssoc rest k

/-- `Map.set`: replace in place if the key exists, else append (JS `Map`
preserves the original insertion position on overwrite). -/
def setAssoc {α : Type} : List (String × α) → String → α → List (String × α)
  | [], k, v => [(k, v)]
  | (k', v') :: rest, k, v =>
    if k' = k then (k, v) :: rest else (k', v') :: setAssoc rest k v

/-- `Map.delete`. -/
def deleteAssoc {α : Type} (l : List (String × α)) (k : String) : List (String × α) :=
  l.filter (fun e => !(e.1 == k))

def emptyNode : NodeRec := ⟨[], []⟩

/-- Graph.getOrCreateNode (runtime/Graph.ts): insert a fresh node at the end
when the name is unknown. -/
def getOrCreateNode (g : Graph) (name : String) : Graph :=
  match lookupAssoc g name with
  | some _ => g
  | none => g ++ [(name, emptyNode)]

/-- Apply a function to the record of the named node (no-op when absent). -/
def updateNode : Graph → String → (NodeRec → NodeRec) → Graph
  | [], _, _ => []
  | e :: rest, name, f =>
    if e.1 = name then (e.1, f e.2) :: updateNode rest name f
    else e :: updateNode rest name f

/-- SongNode.addParent: order-preserving append, guarded by `includes`. -/
def addParent (parents : List String) (p : String) : List String :=
  if p ∈ parents then parents else parents ++ [p]

/-- SongNode.removeParent: `indexOf` + `splice` removes the first occurrence. -/
def removeParent (parents : List String) (p : String) : List String :=
  parents.erase p

/-- JS `Set.add`: append when missing (insertion order preserved). -/
def setAdd (l : List String) (a : String) : List String :=
  if a ∈ l then l else l ++ [a]

def isNullV : Value → Bool
  | .null => true
  | _ => false

mutual

/-- The node (and its stored value) that SongNode.getProperty finds: own
properties first, then parents depth-first in order, where a `null` result
from a parent chain is skipped (`parentValue !== null && !== undefined`).
Outer `none` = out of fuel; `some none` = not found anywhere. -/
def getPropertyOwner (g : Graph) : Nat → String → String → Option (Option (String × Value))
  | 0, _, _ => none
  | fuel+1, nodeName, propName =>
    match lookupAssoc g nodeName with
    | none => some none
    | some nd =>
      match lookupAssoc nd.props propName with
      | some v => some (some (nodeName, v))
      | none => getPropertyOwnerParents g fuel nd.parents propName

def getPropertyOwnerParents (g : Graph) : Nat → List String → String → Option (Option (String × Value))
  | 0, _, _ => none
  | _+1, [], _ => some none
  | fuel+1, p :: ps, propName =>
    match getPropertyOwner g fuel p propName with
    | none => none
    | some (some (owner, v)) =>
      if isNullV v then getPropertyOwnerParents g fuel ps propName
      else some (some (owner, v))
    | some none => getPropertyOwnerParents g fuel ps propName

end

/-- SongNode.getProperty: the found value, with "absent" collapsed to `null`
exactly as in the source (`return null`). -/
def getProperty (g : Graph) (fuel : Nat) (nodeName propName : String) : Option Value :=
  match getPropertyOwner g fuel nodeName propName with
  | none => none
  | some none => some .null
  | some (some (_, v)) => some v

mutual

/-- SongNode.is: `true` on a name match, else recurse through parents in
order.  `none` = out of fuel (the TypeScript original recurses without bound
and diverges on a cyclic parent graph). -/
def nodeIs (g : Graph) : Nat → String → String → Option Bool
  | 0, _, _ => none
  | fuel+1, nodeName, typeName =>
    if nodeName = typeName then some true
    else
      match lookupAssoc g nodeName with
      | none => some false
      | some nd => nodeIsAny g fuel nd.parents typeName

def nodeIsAny (g : Graph) : Nat → List String → String → Option Bool
  | _, [], _ => some false
  | 0, _ :: _, _ => none
  | fuel+1, p :: ps, typeName =>
    match nodeIs g fuel p typeName with
    | none => none
    | some true => some true
    | some false => nodeIsAny g fuel ps typeName

end

def parentsOf : Option NodeRec → List String
  | none => []
  | some nd => nd.parents

mutual

/-- Interpreter.nodeCan: the inherited `_Abilities` lookup at every level,
then recursion into parents.  A mistyped (non-set, non-null) `_Abilities`
value is treated as "no" (the TypeScript cast would fail at runtime there). -/
def nodeCan (g : Graph) : Nat → String → String → Option Bool
  | 0, _, _ => none
  | fuel+1, nodeName, ability =>
    match getProperty g fuel nodeName "_Abilities" with
    | none => none
    | some (.strSet l) =>
      if ability ∈ l then some true
      else nodeCanParents g fuel (parentsOf (lookupAssoc g nodeName)) ability
    | some _ => nodeCanParents g fuel (parentsOf (lookupAssoc g nodeName)) ability

def nodeCanParents (g : Graph) : Nat → List String → String → Option Bool
  | 0, _, _ => none
  | _+1, [], _ => some false
  | fuel+1, p :: ps, ability =>
    match nodeCan g fuel p ability with
    | none => none
    | some true => some true
    | some false => nodeCanParents g fuel ps ability

end

/-- Interpreter.isTruthy (spec §4.5 truthiness). -/
def isTruthy : Value → Bool
  | .null => false
  | .bool b => b
  | .num q => decide (q ≠ 0)
  | .str s => decide (0 < s.length)
  | _ => true

/-- Interpreter.toNumber: numbers pass, booleans become 0/1, everything else
(including null) raises `TypeMismatch`. -/
def toNumber : Value → Except SongErr ℚ
  | .num q => .ok q
  | .bool b => .ok (if b then 1 else 0)
  | _ => .error (.songError .typeMismatch)

/-- Interpreter.equals: strict `===` with `null == null` special-cased.
Two compound values (sets/lists) compare by reference in JS; distinct
occurrences are never identical here, so they compare `false`. -/
def equals : Value → Value → Bool
  | .null, .null => true
  | .num a, .num b => decide (a = b)
  | .str a, .str b => a == b
  | .bool a, .bool b => a == b
  | .node a, .node b => a == b
  | _, _ => false

/-- JS rendering of a number (`String(q)`).  Integers are rendered exactly;
non-integral rationals use a `num/den` form that approximates the JS decimal
output (no claim depends on it). -/
def ratToString (q : ℚ) : String :=
  if q.den = 1 then toString q.num else toString q.num ++ "/" ++ toString q.den

/-- `String(arg)` applied to a relation-statement argument literal. -/
def litToName : Lit → String
  | .s s => s
  | .n q => ratToString q

/-- Strict `===` between a statement argument literal and a runtime value
(the fallback branch of the HAS comparisons; the both-numbers case is
handled by the tolerance comparison before this is consulted). -/
def litEqValue : Lit → Value → Bool
  | .s a, .str b => a == b
  | .n a, .num b => decide (a = b)
  | _, _ => false

/-- ASCII uppercase code of a character (models `toUpperCase` for the ASCII
keywords that the dispatch compares against). -/
def chUp (c : Char) : Nat :=
  if 97 ≤ c.toNat ∧ c.toNat ≤ 122 then c.toNat - 32 else c.toNat

/-- `s.toUpperCase() === kw` for an (already uppercase) keyword `kw`. -/
def upperEq (s kw : String) : Bool :=
  s.data.map chUp == kw.data.map chUp

mutual

/-- JS default string conversion `String(value)`.  For a node reference this
is SongNode.toString, which re-reads the node's current state and recurses
into node-valued properties (hence the fuel).  Compound renderings
approximate the JS output; no claim depends on them. -/
def valueToString (g : Graph) : Nat → Value → String
  | _, .num q => ratToString q
  | _, .str s => s
  | _, .bool b => if b then "true" else "false"
  | _, .null => "null"
  | 0, .node n => n
  | fuel+1, .node n => nodeToString g fuel n
  | _, .strSet _ => "[object Set]"
  | _, .stmts _ => "[object Object]"
  | 0, .nodes l => String.intercalate "," l
  | fuel+1, .nodes l => String.intercalate "," (l.map (fun n => nodeToString g fuel n))
  | _, .roles l => String.intercalate "," l

/-- SongNode.toString. -/
def nodeToString (g : Graph) : Nat → String → String
  | fuel, n =>
    match lookupAssoc g n with
    | none => "Node(" ++ n ++ ") \x7b  \x7d"
    | some nd =>
      let props := String.intercalate ", " (nd.props.map (fun kv =>
        match kv.2 with
        | .str s => kv.1 ++ "=\"" ++ s ++ "\""
        | v => kv.1 ++ "=" ++ valueToString g fuel v))
      let parentsStr :=
        if 0 < nd.parents.length then " IS " ++ String.intercalate ", " nd.parents else ""
      "Node(" ++ n ++ parentsStr ++ ") \x7b " ++ props ++ " \x7d"

end

/-- Truncation toward zero (JS `%` is the truncated remainder). -/
def ratTrunc (q : ℚ) : ℤ :=
  if 0 ≤ q then Rat.floor q else -(Rat.floor (-q))

/-- JS remainder `a % b` for `b ≠ 0`. -/
def jsMod (a b : ℚ) : ℚ := a - b * ((ratTrunc (a / b) : ℤ) : ℚ)

/-- Interpreter.evaluateRandom after both endpoints passed `toNumber`:
`Math.floor(Math.random() * (max - min + 1)) + min` with `min`/`max` the
floored endpoints and `u` the `Math.random()` draw. -/
def evaluateRandom (a b u : ℚ) : ℤ :=
  Rat.floor (u * ((Rat.floor b : ℚ) - (Rat.floor a : ℚ) + 1)) + Rat.floor a

/-- Result of an expression evaluation: value or thrown error, with the
updated random-draw counter; `timeout` = chain-walk fuel exhausted. -/
inductive EvalR where
  | ok : Value → Nat → EvalR
  | err : SongErr → Nat → EvalR
  | timeout : EvalR

/-- Interpreter.resolveIdentifier: context first, then graph node, then the
WHEN subject's inherited property, else `NodeNotFound`. -/
def resolveIdentifier (fuel : Nat) (g : Graph) (ctx : Ctx) (ws : Option String)
    (name : String) (rix : Nat) : EvalR :=
  match lookupAssoc ctx name with
  | some v => .ok v rix
  | none =>
    match lookupAssoc g name with
    | some _ => .ok (.node name) rix
    | none =>
      match ws with
      | some w =>
        match getProperty g fuel w name with
        | none => .timeout
        | some v =>
          if isNullV v then .err (.songError .nodeNotFound) rix else .ok v rix
      | none => .err (.songError .nodeNotFound) rix

/-- The pure part of Interpreter.evaluateBinary for non-logical operators
(both operands already evaluated).  Mirrors the source's evaluation order of
`toNumber` coercions, including divisor-first for `/` and `%`. -/
def evalBinOp (g : Graph) (fuel : Nat) (op : BinaryOperator) (lv rv : Value)
    (rix : Nat) : EvalR :=
  match op with
  | .add =>
    match lv, rv with
    | .str _, _ => .ok (.str (valueToString g fuel lv ++ valueToString g fuel rv)) rix
    | _, .str _ => .ok (.str (valueToString g fuel lv ++ valueToString g fuel rv)) rix
    | _, _ =>
      match toNumber lv with
      | .error e => .err e rix
      | .ok a =>
        match toNumber rv with
        | .error e => .err e rix
        | .ok b => .ok (.num (a + b)) rix
  | .subtract =>
    match toNumber lv with
    | .error e => .err e rix
    | .ok a =>
      match toNumber rv with
      | .error e => .err e rix
      | .ok b => .ok (.num (a - b)) rix
  | .multiply =>
    match toNumber lv with
    | .error e => .err e rix
    | .ok a =>
      match toNumber rv with
      | .error e => .err e rix
      | .ok b => .ok (.num (a * b)) rix
  | .divide =>
    match toNumber rv with
    | .error e => .err e rix
    | .ok b =>
      if b = 0 then .err (.songError .divisionByZero) rix
      else
        match toNumber lv with
        | .error e => .err e rix
        | .ok a => .ok (.num (a / b)) rix
  | .modulo =>
    match toNumber rv with
    | .error e => .err e rix
    | .ok b =>
      if b = 0 then .err (.songError .divisionByZero) rix
      else
        match toNumber lv with
        | .error e => .err e rix
        | .ok a => .ok (.num (jsMod a b)) rix
  | .equal => .ok (.bool (equals lv rv)) rix
  | .notEqual => .ok (.bool (!equals lv rv)) rix
  | .lessThan =>
    match toNumber lv with
    | .error e => .err e rix
    | .ok a =>
      match toNumber rv with
      | .error e => .err e rix
      | .ok b => .ok (.bool (decide (a < b))) rix
  | .greaterThan =>
    match toNumber lv with
    | .error e => .err e rix
    | .ok a =>
      match toNumber rv with
      | .error e => .err e rix
      | .ok b => .ok (.bool (decide (b < a))) rix
  | .lessEqual =>
    match toNumber lv with
    | .error e => .err e rix
    | .ok a =>
      match toNumber rv with
      | .error e => .err e rix
      | .ok b => .ok (.bool (decide (a ≤ b))) rix
  | .greaterEqual =>
    match toNumber lv with
    | .error e => .err e rix
    | .ok a =>
      match toNumber rv with
      | .error e => .err e rix
      | .ok b => .ok (.bool (decide (b ≤ a))) rix
  | _ => .err .interpreterError rix

/-- Interpreter.evaluateExpression.  Structural on the expression; `fuel`
bounds the prototype-chain walks; `rix` is the draw counter. -/
def evaluateExpression (rng : Nat → ℚ) (fuel : Nat) (g : Graph) (ctx : Ctx)
    (ws : Option String) : Expr → Nat → EvalR
  | .num q, rix => .ok (.num q) rix
  | .str s, rix => .ok (.str s) rix
  | .ident name, rix => resolveIdentifier fuel g ctx ws name rix
  | .propAccess obj prop, rix =>
    match evaluateExpression rng fuel g ctx ws obj rix with
    | .timeout => .timeout
    | .err e r => .err e r
    | .ok v r =>
      match v with
      | .node n =>
        match getProperty g fuel n prop with
        | none => .timeout
        | some pv =>
          if isNullV pv then .err (.songError .propertyNotFound) r else .ok pv r
      | _ => .err (.songError .typeMismatch) r
  | .binary lhs op rhs, rix =>
    match op with
    | .land =>
      match evaluateExpression rng fuel g ctx ws lhs rix with
      | .timeout => .timeout
      | .err e r => .err e r
      | .ok lv r =>
        if !isTruthy lv then .ok (.bool false) r
        else
          match evaluateExpression rng fuel g ctx ws rhs r with
          | .timeout => .timeout
          | .err e r2 => .err e r2
          | .ok rv r2 => .ok (.bool (isTruthy rv)) r2
    | .lor =>
      match evaluateExpression rng fuel g ctx ws lhs rix with
      | .timeout => .timeout
      | .err e r => .err e r
      | .ok lv r =>
        if isTruthy lv then .ok (.bool true) r
        else
          match evaluateExpression rng fuel g ctx ws rhs r with
          | .timeout => .timeout
          | .err e r2 => .err e r2
          | .ok rv r2 => .ok (.bool (isTruthy rv)) r2
    | _ =>
      match evaluateExpression rng fuel g ctx ws lhs rix with
      | .timeout => .timeout
      | .err e r => .err e r
      | .ok lv r =>
        match evaluateExpression rng fuel g ctx ws rhs r with
        | .timeout => .timeout
        | .err e r2 => .err e r2
        | .ok rv r2 => evalBinOp g fuel op lv rv r2
  | .unary op e, rix =>
    match evaluateExpression rng fuel g ctx ws e rix with
    | .timeout => .timeout
    | .err er r => .err er r
    | .ok v r =>
      match op with
      | .negate =>
        match toNumber v with
        | .error e2 => .err e2 r
        | .ok a => .ok (.num (-a)) r
      | .lnot => .ok (.bool (!isTruthy v)) r
  | .grouping e, rix => evaluateExpression rng fuel g ctx ws e rix
  | .random mn mx, rix =>
    match evaluateExpression rng fuel g ctx ws mn rix with
    | .timeout => .timeout
    | .err e r => .err e r
    | .ok mnv r =>
      match evaluateExpression rng fuel g ctx ws mx r with
      | .timeout => .timeout
      | .err e r2 => .err e r2
      | .ok mxv r2 =>
        match toNumber mnv with
        | .error e => .err e r2
        | .ok a =>
          match toNumber mxv with
          | .error e => .err e r2
          | .ok b => .ok (.num ((evaluateRandom a b (rng r2) : ℤ) : ℚ)) (r2 + 1)

/-- Interpreter state: the graph, the execution context, the WHEN subject,
the draw counter and the emitted output lines. -/
structure St where
  graph : Graph
  context : Ctx
  whenSubject : Option String
  rix : Nat
  output : List String

/-- Result of executing statements: `err` carries the state at the throw
(the interpreter's mutations persist past an exception). -/
inductive ExecR where
  | ok : St → ExecR
  | err : SongErr → St → ExecR
  | timeout : ExecR

def gocSt (st : St) (n : String) : St :=
  { st with graph := getOrCreateNode st.graph n }

def setPropSt (st : St) (n k : String) (v : Value) : St :=
  { st with graph := updateNode st.graph n (fun nd => { nd with props := setAssoc nd.props k v }) }

def removePropSt (st : St) (n k : String) : St :=
  { st with graph := updateNode st.graph n (fun nd => { nd with props := deleteAssoc nd.props k }) }

def addParentSt (st : St) (child parent : String) : St :=
  { st with graph := updateNode st.graph child (fun nd => { nd with parents := addParent nd.parents parent }) }

def removeParentSt (st : St) (child parent : String) : St :=
  { st with graph := updateNode st.graph child (fun nd => { nd with parents := removeParent nd.parents parent }) }

def setCtx (st : St) (k : String) (v : Value) : St :=
  { st with context := setAssoc st.context k v }

def delCtx (st : St) (k : String) : St :=
  { st with context := deleteAssoc st.context k }

def pushOutput (st : St) (line : String) : St :=
  { st with output := st.output ++ [line] }

def withRix (st : St) (r : Nat) : St := { st with rix := r }

/-- Interpreter.resolveNode: a context binding that is a node wins; anything
else falls through to `getOrCreateNode`. -/
def resolveNode (st : St) (name : String) : String × St :=
  match lookupAssoc st.context name with
  | some (.node n) => (n, st)
  | _ => (name, gocSt st name)

/-- Interpreter.resolveNodeOrNull. -/
def resolveNodeOrNull (st : St) (name : String) : Option String :=
  match lookupAssoc st.context name with
  | some (.node n) => some n
  | _ => (lookupAssoc st.graph name).map (fun _ => name)

/-- Evaluate an expression in the current interpreter state. -/
def evalE (rng : Nat → ℚ) (fuel : Nat) (e : Expr) (st : St) : EvalR :=
  evaluateExpression rng fuel st.graph st.context st.whenSubject e st.rix

/-- Interpreter.executeIs (subject already resolved). -/
def executeIs (subject : String) (args : List Lit) (st : St) : ExecR :=
  match args.head? with
  | none => .err .interpreterError st
  | some objName =>
    let resolved := resolveNode st (litToName objName)
    .ok (addParentSt resolved.2 subject resolved.1)

/-- Interpreter.executeHas: store the second argument (default null); a
string naming an existing node is auto-promoted to a node reference. -/
def executeHas (subject : String) (args : List Lit) (st : St) : ExecR :=
  match args.head? with
  | none => .err .interpreterError st
  | some propName =>
    let value : Value :=
      match args[1]? with
      | none => Value.null
      | some (Lit.n q) => Value.num q
      | some (Lit.s s) => if (lookupAssoc st.graph s).isSome then Value.node s else Value.str s
    .ok (setPropSt st subject (litToName propName) value)

/-- Interpreter.executePrint: the inherited `Name` property, else the node's
own name. -/
def executePrint (fuel : Nat) (subject : String) (st : St) : ExecR :=
  match getProperty st.graph fuel subject "Name" with
  | none => .timeout
  | some v =>
    if isNullV v then .ok (pushOutput st subject)
    else .ok (pushOutput st (valueToString st.graph fuel v))

/-- Interpreter.executeHasExpression: no auto-promotion of the value. -/
def executeHasExpression (rng : Nat → ℚ) (fuel : Nat) (subject property : String)
    (ve : Expr) (st : St) : ExecR :=
  let resolved := resolveNode st subject
  match evalE rng fuel ve resolved.2 with
  | .timeout => .timeout
  | .err e r => .err e (withRix resolved.2 r)
  | .ok v r => .ok (setPropSt (withRix resolved.2 r) resolved.1 property v)

/-- Interpreter.executeExpressionPrint. -/
def executeExpressionPrint (rng : Nat → ℚ) (fuel : Nat) (e : Expr) (st : St) : ExecR :=
  match evalE rng fuel e st with
  | .timeout => .timeout
  | .err er r => .err er (withRix st r)
  | .ok v r =>
    let st1 := withRix st r
    match v with
    | .node n =>
      match getProperty st1.graph fuel n "Name" with
      | none => .timeout
      | some nv =>
        if isNullV nv then .ok (pushOutput st1 n)
        else .ok (pushOutput st1 (valueToString st1.graph fuel nv))
    | _ =>
      if isNullV v then .ok (pushOutput st1 "null")
      else .ok (pushOutput st1 (valueToString st1.graph fuel v))

/-- Interpreter.executeExpressionHas: the subject expression must be a node. -/
def executeExpressionHas (rng : Nat → ℚ) (fuel : Nat) (subjE : Expr)
    (property : String) (litVal : Option Lit) (ve : Option Expr) (st : St) : ExecR :=
  match evalE rng fuel subjE st with
  | .timeout => .timeout
  | .err e r => .err e (withRix st r)
  | .ok sv r =>
    let st1 := withRix st r
    match sv with
    | .node n =>
      match ve with
      | some e2 =>
        match evalE rng fuel e2 st1 with
        | .timeout => .timeout
        | .err er r2 => .err er (withRix st1 r2)
        | .ok v r2 => .ok (setPropSt (withRix st1 r2) n property v)
      | none =>
        let v : Value :=
          match litVal with
          | none => Value.null
          | some (Lit.n q) => Value.num q
          | some (Lit.s s) => if (lookupAssoc st1.graph s).isSome then Value.node s else Value.str s
        .ok (setPropSt st1 n property v)
    | _ => .err .interpreterError st1

/-- Interpreter.executeRoleDefinition: subject via `getOrCreateNode` (not the
context); the `_Roles` array found by the inherited lookup is pushed to in
place (the owning node's list grows), a missing/null `_Roles` becomes a fresh
list on the subject. -/
def executeRoleDefinition (fuel : Nat) (subject roleName : String) (st : St) : ExecR :=
  let st1 := gocSt st subject
  match getPropertyOwner st1.graph fuel subject "_Roles" with
  | none => .timeout
  | some (some (owner, .roles l)) =>
    if roleName ∈ l then .ok st1
    else .ok (setPropSt st1 owner "_Roles" (.roles (l ++ [roleName])))
  | some (some (_, .null)) => .ok (setPropSt st1 subject "_Roles" (.roles [roleName]))
  | some none => .ok (setPropSt st1 subject "_Roles" (.roles [roleName]))
  | some (some _) => .err .nativeTypeError st1

/-- Interpreter.executeCan: `subject.getProperty('_Abilities')` walks the
prototype chain; a set found on an ancestor is mutated in place (that
ancestor's property changes), a fresh set is created on the subject only
when the walk found nothing (or an own null). -/
def executeCan (fuel : Nat) (subjectRaw ability : String) (st : St) : ExecR :=
  let resolved := resolveNode st subjectRaw
  match getPropertyOwner resolved.2.graph fuel resolved.1 "_Abilities" with
  | none => .timeout
  | some (some (owner, .strSet l)) =>
    .ok (setPropSt resolved.2 owner "_Abilities" (.strSet (setAdd l ability)))
  | some (some (_, .null)) =>
    .ok (setPropSt resolved.2 resolved.1 "_Abilities" (.strSet [ability]))
  | some none =>
    .ok (setPropSt resolved.2 resolved.1 "_Abilities" (.strSet [ability]))
  | some (some _) => .err .nativeTypeError resolved.2

/-- The property-removal fallback of Interpreter.executeLoses (Auto). -/
def losesProp (s target : String) (st : St) : ExecR :=
  match lookupAssoc st.graph s with
  | some nd =>
    if (lookupAssoc nd.props target).isSome then .ok (removePropSt st s target)
    else .ok st
  | none => .ok st

/-- Interpreter.executeLoses. -/
def executeLoses (fuel : Nat) (subjectRaw target : String) (ty : LosesType) (st : St) : ExecR :=
  let resolved := resolveNode st subjectRaw
  match ty with
  | .isTy =>
    match resolveNodeOrNull resolved.2 target with
    | none => .ok resolved.2
    | some p => .ok (removeParentSt resolved.2 resolved.1 p)
  | .auto =>
    match getPropertyOwner resolved.2.graph fuel resolved.1 "_Abilities" with
    | none => .timeout
    | some (some (owner, .strSet l)) =>
      if target ∈ l then
        .ok (setPropSt resolved.2 owner "_Abilities" (.strSet (l.erase target)))
      else losesProp resolved.1 target resolved.2
    | some (some (_, .null)) => losesProp resolved.1 target resolved.2
    | some none => losesProp resolved.1 target resolved.2
    | some (some _) => .err .nativeTypeError resolved.2

/-- Interpreter.executeDoBlock: store the unevaluated body under `_DoBody`. -/
def executeDoBlock (subjectRaw : String) (body : List Stmt) (st : St) : ExecR :=
  let resolved := resolveNode st subjectRaw
  .ok (setPropSt resolved.2 resolved.1 "_DoBody" (.stmts body))

/-- Interpreter.formatNode (debug dump line for one node). -/
def formatNode (g : Graph) (fuel : Nat) (name : String) (nd : NodeRec) : String :=
  let base := "Node(" ++ name ++ ")"
  let withParents :=
    if 0 < nd.parents.length then base ++ " IS " ++ String.intercalate ", " nd.parents
    else base
  let visible := nd.props.filter (fun kv => !(kv.1.startsWith "_"))
  let renderProp := fun (kv : String × Value) =>
    match kv.2 with
    | .str s => kv.1 ++ "=\"" ++ s ++ "\""
    | .node n => kv.1 ++ "=→" ++ n
    | v => kv.1 ++ "=" ++ valueToString g fuel v
  let w2 :=
    if 0 < visible.length then
      withParents ++ " \x7b " ++ String.intercalate ", " (visible.map renderProp) ++ " \x7d"
    else withParents
  let w3 :=
    match lookupAssoc nd.props "_Items" with
    | some (.nodes items) =>
      if 0 < items.length then w2 ++ " CONTAINS [" ++ String.intercalate ", " items ++ "]"
      else w2
    | _ => w2
  match lookupAssoc nd.props "_Abilities" with
  | some (.strSet ab) =>
    if 0 < ab.length then w3 ++ " CAN [" ++ String.intercalate ", " ab ++ "]" else w3
  | _ => w3

/-- Interpreter.dumpGraph. -/
def dumpGraph (fuel : Nat) (st : St) : St :=
  let st1 := pushOutput st "--- Graph State ---"
  if st1.graph.length = 0 then pushOutput st1 "(empty)"
  else
    let st2 := st1.graph.foldl (fun acc e => pushOutput acc (formatNode st1.graph fuel e.1 e.2)) st1
    pushOutput st2 "-------------------"

/-- Interpreter.executeDebug. -/
def executeDebug (fuel : Nat) (t : DebugTarget) (st : St) : ExecR :=
  match t with
  | .graph => .ok (dumpGraph fuel st)
  | .tokens => .ok (pushOutput st "DEBUG Tokens는 아직 구현되지 않았습니다.")
  | .ast => .ok (pushOutput st "DEBUG Ast는 아직 구현되지 않았습니다.")

/-- `String(condition.arguments[0])` in the IS/CAN legacy conditions: a
missing argument is JS `undefined`, which passes the `!== null` test and is
stringified to "undefined". -/
def condArgName (args : List Lit) : String :=
  match args.head? with
  | some l => litToName l
  | none => "undefined"

/-- Interpreter.evaluateHasCondition: presence test when no value is given
(a stored null fails it), |a-b| < 1e-4 tolerance for numbers, strict `===`
otherwise. -/
def evaluateHasCondition (fuel : Nat) (g : Graph) (nodeName : String)
    (args : List Lit) : Option Bool :=
  match args.head? with
  | none => some false
  | some propName =>
    match getProperty g fuel nodeName (litToName propName) with
    | none => none
    | some propValue =>
      match args[1]? with
      | none => some (!isNullV propValue)
      | some relValue =>
        if isNullV propValue then some false
        else
          match relValue, propValue with
          | .n a, .num b => some (decide (|a - b| < 1 / 10000))
          | rv, pv => some (litEqValue rv pv)

/-- Interpreter.evaluateCondition (legacy WHEN): only relation-shaped
conditions are evaluable, the subject is looked up with `getNode` (never
created), a missing subject yields false. -/
def evaluateCondition (fuel : Nat) (g : Graph) : Stmt → Option Bool
  | .relation subject relation args =>
    match lookupAssoc g subject with
    | none => some false
    | some _ =>
      if upperEq relation "HAS" then evaluateHasCondition fuel g subject args
      else if upperEq relation "IS" then nodeIs g fuel subject (condArgName args)
      else if upperEq relation "CAN" then nodeCan g fuel subject (condArgName args)
      else some false
  | _ => some false

/-- The WHERE filter's inclusion test (Interpreter.filterByWhereCondition):
only a boolean `true` or a non-zero number keeps the candidate — any other
result (node references, strings, null) drops it. -/
def whereKeep : Value → Bool
  | .bool b => b
  | .num q => decide (q ≠ 0)
  | _ => false

/-- Interpreter.filterByWhereCondition: bind the query variable to each
candidate, evaluate, keep per `whereKeep`; evaluation errors silently drop
the candidate; the binding is removed in a `finally`.  `none` = fuel ran out
during an evaluation. -/
def filterByWhereCondition (rng : Nat → ℚ) (fuel : Nat) (varName : String)
    (wc : Expr) : List String → St → Option (List String × St)
  | [], st => some ([], st)
  | n :: ns, st =>
    let st1 := setCtx st varName (.node n)
    match evalE rng fuel wc st1 with
    | .timeout => none
    | .ok v r =>
      let st2 := delCtx (withRix st1 r) varName
      match filterByWhereCondition rng fuel varName wc ns st2 with
      | none => none
      | some (rest, st3) => some ((if whereKeep v then n :: rest else rest), st3)
    | .err _ r =>
      let st2 := delCtx (withRix st1 r) varName
      filterByWhereCondition rng fuel varName wc ns st2

/-- Interpreter.matchesIsQuery. -/
def matchesIsQuery (fuel : Nat) (g : Graph) (n : String) (target : Option String) :
    Option Bool :=
  match target with
  | none => some true
  | some t => nodeIs g fuel n t

/-- Interpreter.matchesHasQuery (`node.properties.size > 0` is the own map). -/
def matchesHasQuery (fuel : Nat) (g : Graph) (n : String) (target : Option String)
    (targetValue : Option Lit) : Option Bool :=
  match target with
  | none => some (decide (0 < ((lookupAssoc g n).elim 0 (fun nd => nd.props.length))))
  | some t =>
    match getProperty g fuel n t with
    | none => none
    | some pv =>
      if isNullV pv then some false
      else
        match targetValue with
        | none => some true
        | some tv =>
          match tv, pv with
          | .n a, .num b => some (decide (|a - b| < 1 / 10000))
          | tv, pv => some (litEqValue tv pv)

/-- Interpreter.matchesCanQuery. -/
def matchesCanQuery (fuel : Nat) (g : Graph) (n : String) (target : Option String) :
    Option Bool :=
  match target with
  | none =>
    match getProperty g fuel n "_Abilities" with
    | none => none
    | some (.strSet l) => some (decide (0 < l.length))
    | some _ => some false
  | some t => nodeCan g fuel n t

/-- Interpreter.findMatchingNodes: scan the whole graph in insertion order;
the relation name is compared case-sensitively here. -/
def findMatchingNodesAux (fuel : Nat) (g : Graph) (relation : String)
    (target : Option String) (targetValue : Option Lit) :
    List (String × NodeRec) → Option (List String)
  | [] => some []
  | e :: rest =>
    let m : Option Bool :=
      if relation = "IS" then matchesIsQuery fuel g e.1 target
      else if relation = "HAS" then matchesHasQuery fuel g e.1 target targetValue
      else if relation = "CAN" then matchesCanQuery fuel g e.1 target
      else some false
    match m with
    | none => none
    | some b =>
      match findMatchingNodesAux fuel g relation target targetValue rest with
      | none => none
      | some ns => some (if b then e.1 :: ns else ns)

def findMatchingNodes (fuel : Nat) (g : Graph) (relation : String)
    (target : Option String) (targetValue : Option Lit) : Option (List String) :=
  findMatchingNodesAux fuel g relation target targetValue g

/-- Interpreter.getQueryResults: the materialized `_Items` of a node tagged
`QueryResult`, else the empty list. -/
def getQueryResults (fuel : Nat) (g : Graph) (variableName : String) :
    Option (List String) :=
  match lookupAssoc g variableName with
  | none => some []
  | some _ =>
    match nodeIs g fuel variableName "QueryResult" with
    | none => none
    | some false => some []
    | some true =>
      match getProperty g fuel variableName "_Items" with
      | none => none
      | some (.nodes l) => some l
      | some _ => some []

def queryVarName (pat : QueryPattern) : String := pat.variableName.getD "_"

/-- Interpreter.executeQuery: match, filter by WHERE, then for a variable
subject materialize the result node (parent `QueryResult`, `_Items`) and
report. -/
def executeQuery (rng : Nat → ℚ) (fuel : Nat) (pat : QueryPattern)
    (relation : String) (target : Option String) (targetValue : Option Lit)
    (whereCondition : Option Expr) (st : St) : ExecR :=
  match findMatchingNodes fuel st.graph relation target targetValue with
  | none => .timeout
  | some ms0 =>
    let step : Option (List String × St) :=
      match whereCondition with
      | none => some (ms0, st)
      | some wc => filterByWhereCondition rng fuel (queryVarName pat) wc ms0 st
    match step with
    | none => .timeout
    | some (ms, st1) =>
      match pat.isWildcard, pat.variableName with
      | false, some varName =>
        let st2 := gocSt st1 varName
        let st3 := gocSt st2 "QueryResult"
        let st4 := addParentSt st3 varName "QueryResult"
        let st5 := setPropSt st4 varName "_Items" (.nodes ms)
        let st6 := pushOutput st5 ("Query ?" ++ varName ++ ": " ++ toString ms.length ++ " nodes found")
        .ok (ms.foldl (fun acc n => pushOutput acc ("  - " ++ n)) st6)
      | _, _ =>
        let st6 := pushOutput st1 ("Query: " ++ toString ms.length ++ " nodes found")
        .ok (ms.foldl (fun acc n => pushOutput acc ("  - " ++ n)) st6)

/-- The role-binding loop of Interpreter.executeCustomRelation:
`roles[i] ← getOrCreateNode(String(arguments[i-1]))`, skipping empty
argument names (`if (argName)`). -/
def bindRoles : List (String × Lit) → St → St
  | [], st => st
  | (role, arg) :: rest, st =>
    let argName := litToName arg
    if argName = "" then bindRoles rest st
    else bindRoles rest (setCtx (gocSt st argName) role (.node argName))

/-- `allNodes.filter((n) => n.is(typeName))` of Interpreter.executeAll. -/
def filterIsNodes (fuel : Nat) (g : Graph) (typeName : String) :
    List (String × NodeRec) → Option (List String)
  | [] => some []
  | e :: rest =>
    match nodeIs g fuel e.1 typeName with
    | none => none
    | some b =>
      match filterIsNodes fuel g typeName rest with
      | none => none
      | some ns => some (if b then e.1 :: ns else ns)

mutual

/-- Interpreter.execute: run statements in order; a thrown error aborts. -/
def execute (rng : Nat → ℚ) : Nat → List Stmt → St → ExecR
  | 0, _, _ => .timeout
  | _+1, [], st => .ok st
  | fuel+1, stmt :: rest, st =>
    match executeStatement rng fuel stmt st with
    | .ok st1 => execute rng fuel rest st1
    | r => r

/-- Interpreter.executeStatement: dispatch on the statement kind. -/
def executeStatement (rng : Nat → ℚ) : Nat → Stmt → St → ExecR
  | 0, _, _ => .timeout
  | fuel+1, stmt, st =>
    match stmt with
    | .relation subject relation args => executeRelation rng fuel subject relation args st
    | .hasExpression subject property ve => executeHasExpression rng fuel subject property ve st
    | .roleDefinition subject roleName => executeRoleDefinition fuel subject roleName st
    | .doBlock subject body => executeDoBlock subject body st
    | .can subject ability => executeCan fuel subject ability st
    | .loses subject target ty => executeLoses fuel subject target ty st
    | .debug t => executeDebug fuel t st
    | .whenStmt cond body => executeWhen rng fuel cond body st
    | .whenExpression w => executeWhenExpression rng fuel w st
    | .all typeName qv action => executeAll rng fuel typeName qv action st
    | .each coll variIdent body => executeEach rng fuel coll variIdent body st
    | .query pat rel target tv wc => executeQuery rng fuel pat rel target tv wc st
    | .expressionPrint e => executeExpressionPrint rng fuel e st
    | .expressionHas e p lv ve => executeExpressionHas rng fuel e p lv ve st
    | .chance pexpr body elseBody => executeChance rng fuel pexpr body elseBody st

/-- Interpreter.executeRelation: resolve the subject, then case-insensitive
dispatch on the relation name. -/
def executeRelation (rng : Nat → ℚ) : Nat → String → String → List Lit → St → ExecR
  | 0, _, _, _, _ => .timeout
  | fuel+1, subjectRaw, relation, args, st =>
    let resolved := resolveNode st subjectRaw
    if upperEq relation "IS" then executeIs resolved.1 args resolved.2
    else if upperEq relation "HAS" then executeHas resolved.1 args resolved.2
    else if upperEq relation "PRINT" then executePrint fuel resolved.1 resolved.2
    else executeCustomRelation rng fuel resolved.1 relation args resolved.2

/-- Interpreter.executeCustomRelation.  No try/finally protects the
role-unbinding loop: it runs only when the body completes normally.
A mistyped (neither list nor null) `_Roles` is treated as absent. -/
def executeCustomRelation (rng : Nat → ℚ) : Nat → String → String → List Lit → St → ExecR
  | 0, _, _, _, _ => .timeout
  | fuel+1, subject, relation, args, st =>
    match lookupAssoc st.graph relation with
    | none =>
      if 0 < args.length then
        let objName := litToName (args.head?.getD (.s ""))
        .ok (setPropSt (gocSt st objName) subject ("_" ++ relation) (.str objName))
      else .ok st
    | some _ =>
      match nodeIs st.graph fuel relation "RELATION" with
      | none => .timeout
      | some false => .err .interpreterError st
      | some true =>
        match getProperty st.graph fuel relation "_DoBody" with
        | none => .timeout
        | some (.stmts doBody) =>
          match getProperty st.graph fuel relation "_Roles" with
          | none => .timeout
          | some (.roles (r0 :: rs)) =>
            let st1 := setCtx st r0 (.node subject)
            let st2 := bindRoles (rs.zip args) st1
            match execute rng fuel doBody st2 with
            | .ok st3 => .ok ((r0 :: rs).foldl delCtx st3)
            | r => r
          | some _ => execute rng fuel doBody st
        | some .null => .ok st
        | some _ => .err .nativeTypeError st

/-- Interpreter.executeWhen (legacy form). -/
def executeWhen (rng : Nat → ℚ) : Nat → Stmt → List Stmt → St → ExecR
  | 0, _, _, _ => .timeout
  | fuel+1, cond, body, st =>
    match evaluateCondition fuel st.graph cond with
    | none => .timeout
    | some true => execute rng fuel body st
    | some false => .ok st

/-- Interpreter.executeWhenExpression: bind the subject if it exists, set
`whenSubject` (to null when the subject is unknown), evaluate, branch; a
`finally` restores `whenSubject` and evicts the binding on both exits. -/
def executeWhenExpression (rng : Nat → ℚ) : Nat → WhenExpr → St → ExecR
  | 0, _, _ => .timeout
  | fuel+1, .mk subject condition body elseBody elseWhen, st =>
    let subjExists := (lookupAssoc st.graph subject).isSome
    let st1 := if subjExists then setCtx st subject (.node subject) else st
    let prevWS := st.whenSubject
    let st2 := { st1 with whenSubject := if subjExists then some subject else none }
    let restore : St → St := fun s =>
      let s1 := { s with whenSubject := prevWS }
      if subjExists then delCtx s1 subject else s1
    let inner : ExecR :=
      match evalE rng fuel condition st2 with
      | .timeout => .timeout
      | .err e r => .err e (withRix st2 r)
      | .ok v r =>
        let st3 := withRix st2 r
        if isTruthy v then execute rng fuel body st3
        else
          match elseWhen with
          | some w => executeWhenExpression rng fuel w st3
          | none =>
            match elseBody with
            | some eb => execute rng fuel eb st3
            | none => .ok st3
    match inner with
    | .ok s => .ok (restore s)
    | .err e s => .err e (restore s)
    | .timeout => .timeout

/-- Interpreter.executeChance: evaluate the percent, draw
`Math.floor(Math.random() * 100)`, run body iff `roll < percent`. -/
def executeChance (rng : Nat → ℚ) : Nat → Expr → List Stmt → Option (List Stmt) → St → ExecR
  | 0, _, _, _, _ => .timeout
  | fuel+1, percentExpr, body, elseBody, st =>
    match evalE rng fuel percentExpr st with
    | .timeout => .timeout
    | .err e r => .err e (withRix st r)
    | .ok pv r =>
      match toNumber pv with
      | .error e => .err e (withRix st r)
      | .ok percent =>
        let roll : ℤ := Rat.floor (rng r * 100)
        let st1 := withRix st (r + 1)
        if (roll : ℚ) < percent then execute rng fuel body st1
        else
          match elseBody with
          | some eb => execute rng fuel eb st1
          | none => .ok st1

/-- Interpreter.executeAll. -/
def executeAll (rng : Nat → ℚ) : Nat → String → Option String → Option Stmt → St → ExecR
  | 0, _, _, _, _ => .timeout
  | fuel+1, typeName, queryVariable, action, st =>
    match queryVariable with
    | some v =>
      match getQueryResults fuel st.graph v with
      | none => .timeout
      | some ms =>
        if ms.length = 0 then
          .ok (pushOutput st ("ALL ?" ++ v ++ ": No query results found (run query first)"))
        else executeAllCont rng fuel typeName queryVariable action ms st
    | none =>
      match filterIsNodes fuel st.graph typeName st.graph with
      | none => .timeout
      | some ms => executeAllCont rng fuel typeName queryVariable action ms st

def executeAllCont (rng : Nat → ℚ) : Nat → String → Option String → Option Stmt → List String → St → ExecR
  | 0, _, _, _, _, _ => .timeout
  | fuel+1, typeName, queryVariable, action, ms, st =>
    match action with
    | none =>
      let target :=
        match queryVariable with
        | some v => "?" ++ v
        | none => typeName
      .ok (pushOutput st ("ALL " ++ target ++ ": " ++ toString ms.length ++ " nodes found"))
    | some act => executeAllLoop rng fuel ms act st

def executeAllLoop (rng : Nat → ℚ) : Nat → List String → Stmt → St → ExecR
  | 0, _, _, _ => .timeout
  | _+1, [], _, st => .ok st
  | fuel+1, n :: ns, act, st =>
    match executeActionOnNode rng fuel n act st with
    | .ok st1 => executeAllLoop rng fuel ns act st1
    | r => r

/-- Interpreter.executeActionOnNode: rebuild the relation with the matched
node as subject; non-relation actions are ignored. -/
def executeActionOnNode (rng : Nat → ℚ) : Nat → String → Stmt → St → ExecR
  | 0, _, _, _ => .timeout
  | fuel+1, nodeName, action, st =>
    match action with
    | .relation _ relation args => executeRelation rng fuel nodeName relation args st
    | _ => .ok st

/-- Interpreter.executeEach: the children snapshot is taken before the loop;
the loop variable is bound before and deleted after each iteration (no
try/finally, so a throw keeps the binding). -/
def executeEach (rng : Nat → ℚ) : Nat → String → String → List Stmt → St → ExecR
  | 0, _, _, _, _ => .timeout
  | fuel+1, collection, variIdent, body, st =>
    match lookupAssoc st.graph collection with
    | none => .err .interpreterError st
    | some _ =>
      let children := (st.graph.filter (fun e => decide (collection ∈ e.2.parents))).map (fun e => e.1)
      executeEachLoop rng fuel children variIdent body st

def executeEachLoop (rng : Nat → ℚ) : Nat → List String → String → List Stmt → St → ExecR
  | 0, _, _, _, _ => .timeout
  | _+1, [], _, _, st => .ok st
  | fuel+1, c :: cs, variIdent, body, st =>
    match execute rng fuel body (setCtx st variIdent (.node c)) with
    | .ok st1 => executeEachLoop rng fuel cs variIdent body (delCtx st1 variIdent)
    | r => r

end

/-! ### Derived notions used by the claims -/

/-- The state of a fresh interpreter: empty graph, empty context. -/
def initSt : St := ⟨[], [], none, 0, []⟩

/-- `n.is(t)` terminates: some fuel suffices for the bounded model to
produce an answer (the TypeScript recursion reaches a base case). -/
def isTerminates (g : Graph) (n t : String) : Prop :=
  ∃ fuel, (nodeIs g fuel n t).isSome

/-- A strictly decreasing measure along parent edges (exists iff the
IS-graph is acyclic on a finite graph). -/
def ParentsBounded (g : Graph) (m : String → Nat) : Prop :=
  ∀ e ∈ g, ∀ p ∈ e.2.parents, m p < m e.1

/-- Every node's parents list is duplicate-free. -/
def GraphWF (g : Graph) : Prop := ∀ e ∈ g, e.2.parents.Nodup

/-- The graph of an execution result is well-formed (vacuous on timeout). -/
def ExecWF : ExecR → Prop
  | .ok st => GraphWF st.graph
  | .err _ st => GraphWF st.graph
  | .timeout => True

/-- The parents list a node currently has (empty when the node is absent,
matching the fresh-node default). -/
def nodeParents (g : Graph) (n : String) : List String :=
  ((lookupAssoc g n).getD emptyNode).parents

/-- A node's own property (no inheritance). -/
def getOwnProp (g : Graph) (n k : String) : Option Value :=
  match lookupAssoc g n with
  | none => none
  | some nd => lookupAssoc nd.props k

/-- The expression contains no RANDOM subterm (its evaluation draws
nothing). -/
def noRandom : Expr → Bool
  | .num _ => true
  | .str _ => true
  | .ident _ => true
  | .propAccess e _ => noRandom e
  | .binary l _ r => noRandom l && noRandom r
  | .unary _ e => noRandom e
  | .grouping e => noRandom e
  | .random _ _ => false

/-- The verdict the WHERE loop reaches for one candidate `n`. -/
def evalKeep (rng : Nat → ℚ) (fuel : Nat) (st : St) (varName : String)
    (wc : Expr) (n : String) : Bool :=
  match evaluateExpression rng fuel st.graph (setAssoc st.context varName (.node n))
      st.whenSubject wc st.rix with
  | .ok v _ => whereKeep v
  | _ => false

/-! ### Association-list and graph lemmas -/

theorem mem_of_lookupAssoc {α : Type} {l : List (String × α)} {k : String} {v : α}
    (h : lookupAssoc l k = some v) : (k, v) ∈ l := by
  induction l with
  | nil => simp [lookupAssoc] at h
  | cons e rest ih =>
    by_cases he : e.1 = k
    · rw [lookupAssoc, if_pos he] at h
      cases e with
      | mk a b => simp_all
    · rw [lookupAssoc, if_neg he] at h
      exact List.mem_cons_of_mem _ (ih h)

theorem lookupAssoc_setAssoc_self {α : Type} (l : List (String × α)) (k : String) (v : α) :
    lookupAssoc (setAssoc l k v) k = some v := by
  induction l with
  | nil => simp [setAssoc, lookupAssoc]
  | cons e rest ih =>
    by_cases he : e.1 = k
    · simp [setAssoc, he, lookupAssoc]
    · simp [setAssoc, he, lookupAssoc, ih]

theorem lookupAssoc_setAssoc_ne {α : Type} (l : List (String × α)) (k k' : String) (v : α)
    (h : k' ≠ k) : lookupAssoc (setAssoc l k v) k' = lookupAssoc l k' := by
  have h' : ¬ (k = k') := fun hh => h hh.symm
  induction l with
  | nil => simp [setAssoc, lookupAssoc, h']
  | cons e rest ih =>
    by_cases he : e.1 = k
    · have h2 : ¬ (e.1 = k') := by rw [he]; exact h'
      simp [setAssoc, he, lookupAssoc, h', h2, h]
    · by_cases h2 : e.1 = k'
      · simp [setAssoc, he, lookupAssoc, h2, h]
      · simp [setAssoc, he, lookupAssoc, h2, h, ih]

theorem lookupAssoc_deleteAssoc_self {α : Type} (l : List (String × α)) (k : String) :
    lookupAssoc (deleteAssoc l k) k = none := by
  induction l with
  | nil => simp [deleteAssoc, lookupAssoc]
  | cons e rest ih =>
    by_cases he : e.1 = k
    · simpa [deleteAssoc, List.filter_cons, he] using ih
    · simpa [deleteAssoc, List.filter_cons, he, lookupAssoc] using ih

theorem lookupAssoc_deleteAssoc_ne {α : Type} (l : List (String × α)) (k k' : String)
    (h : k' ≠ k) : lookupAssoc (deleteAssoc l k) k' = lookupAssoc l k' := by
  induction l with
  | nil => simp [deleteAssoc, lookupAssoc]
  | cons e rest ih =>
    simp only [deleteAssoc, List.filter_cons] at ih ⊢
    by_cases he : e.1 = k
    · have h2 : ¬ (e.1 = k') := by rw [he]; exact fun hh => h hh.symm
      simp [he, lookupAssoc, h2, h, Ne.symm h, ih]
    · by_cases h2 : e.1 = k'
      · simp [he, lookupAssoc, h2, h, Ne.symm h]
      · simp [he, lookupAssoc, h2, h, Ne.symm h, ih]

theorem lookupAssoc_none_deleteAssoc {α : Type} (l : List (String × α)) (k k' : String)
    (h : lookupAssoc l k = none) : lookupAssoc (deleteAssoc l k') k = none := by
  by_cases hk : k = k'
  · subst hk; exact lookupAssoc_deleteAssoc_self l k
  · rw [lookupAssoc_deleteAssoc_ne _ _ _ hk]; exact h

theorem deleteAssoc_of_lookup_none {α : Type} (l : List (String × α)) (k : String)
    (h : lookupAssoc l k = none) : deleteAssoc l k = l := by
  induction l with
  | nil => simp [deleteAssoc]
  | cons e rest ih =>
    rw [lookupAssoc] at h
    by_cases he : e.1 = k
    · simp [he] at h
    · rw [if_neg he] at h
      simp [deleteAssoc, List.filter_cons, he] at ih ⊢
      exact ih h

theorem setAssoc_of_lookup_none {α : Type} (l : List (String × α)) (k : String) (v : α)
    (h : lookupAssoc l k = none) : setAssoc l k v = l ++ [(k, v)] := by
  induction l with
  | nil => simp [setAssoc]
  | cons e rest ih =>
    rw [lookupAssoc] at h
    by_cases he : e.1 = k
    · simp [he] at h
    · rw [if_neg he] at h
      simp [setAssoc, he, ih h]

theorem deleteAssoc_setAssoc_of_none {α : Type} (l : List (String × α)) (k : String) (v : α)
    (h : lookupAssoc l k = none) : deleteAssoc (setAssoc l k v) k = l := by
  rw [setAssoc_of_lookup_none _ _ _ h]
  induction l with
  | nil => simp [deleteAssoc, List.filter_cons]
  | cons e rest ih =>
    rw [lookupAssoc] at h
    by_cases he : e.1 = k
    · simp [he] at h
    · rw [if_neg he] at h
      simp only [List.cons_append, deleteAssoc, List.filter_cons, he]
      simp only [deleteAssoc] at ih
      simp [ih h, he]

theorem lookupAssoc_append_right {α : Type} (l l' : List (String × α)) (k : String)
    (h : lookupAssoc l k = none) : lookupAssoc (l ++ l') k = lookupAssoc l' k := by
  induction l with
  | nil => simp
  | cons e rest ih =>
    rw [lookupAssoc] at h
    by_cases he : e.1 = k
    · simp [he] at h
    · rw [if_neg he] at h
      rw [List.cons_append, lookupAssoc, if_neg he]
      exact ih h

theorem lookupAssoc_append_left {α : Type} (l l' : List (String × α)) (k : String) (v : α)
    (h : lookupAssoc l k = some v) : lookupAssoc (l ++ l') k = some v := by
  induction l with
  | nil => simp [lookupAssoc] at h
  | cons e rest ih =>
    rw [lookupAssoc] at h
    by_cases he : e.1 = k
    · rw [if_pos he] at h
      rw [List.cons_append, lookupAssoc, if_pos he]
      exact h
    · rw [if_neg he] at h
      rw [List.cons_append, lookupAssoc, if_neg he]
      exact ih h

theorem lookupAssoc_goc_self (g : Graph) (n : String) :
    lookupAssoc (getOrCreateNode g n) n = some ((lookupAssoc g n).getD emptyNode) := by
  rw [getOrCreateNode]
  cases h : lookupAssoc g n with
  | some nd => simp [h]
  | none =>
    simp only [h]
    rw [lookupAssoc_append_right _ _ _ h]
    simp [lookupAssoc]

theorem lookupAssoc_goc_ne (g : Graph) (n n' : String) (h : n' ≠ n) :
    lookupAssoc (getOrCreateNode g n) n' = lookupAssoc g n' := by
  rw [getOrCreateNode]
  cases hn : lookupAssoc g n with
  | some nd => rfl
  | none =>
    cases h' : lookupAssoc g n' with
    | some nd => exact lookupAssoc_append_left _ _ _ _ h'
    | none =>
      rw [lookupAssoc_append_right _ _ _ h']
      have h2 : ¬ (n = n') := fun hh => h hh.symm
      simp [lookupAssoc, h2]

theorem lookupAssoc_updateNode {g : Graph} (k n : String) (f : NodeRec → NodeRec) :
    lookupAssoc (updateNode g k f) n =
      if n = k then (lookupAssoc g k).map f else lookupAssoc g n := by
  induction g with
  | nil => simp [updateNode, lookupAssoc]
  | cons e rest ih =>
    rw [updateNode]
    by_cases he : e.1 = k
    · rw [if_pos he]
      by_cases hn : n = k
      · subst hn
        simp [lookupAssoc, he]
      · have h2 : ¬ (e.1 = n) := by rw [he]; exact fun hh => hn hh.symm
        simp [lookupAssoc, h2, hn, ih]
    · rw [if_neg he]
      by_cases hn : n = k
      · subst hn
        simp [lookupAssoc, he, ih]
      · by_cases h2 : e.1 = n
        · simp [lookupAssoc, h2, hn]
        · simp [lookupAssoc, h2, hn, ih]

theorem nodeParents_goc (g : Graph) (k n : String) :
    nodeParents (getOrCreateNode g k) n = nodeParents g n := by
  unfold nodeParents
  by_cases h : n = k
  · subst h
    rw [lookupAssoc_goc_self]
    cases hl : lookupAssoc g n with
    | none => simp [emptyNode]
    | some nd => simp
  · rw [lookupAssoc_goc_ne _ _ _ h]

theorem nodeParents_setPropSt (st : St) (n k : String) (v : Value) (n' : String) :
    nodeParents (setPropSt st n k v).graph n' = nodeParents st.graph n' := by
  unfold nodeParents setPropSt
  simp only
  rw [lookupAssoc_updateNode]
  by_cases h : n' = n
  · subst h
    cases hl : lookupAssoc st.graph n' with
    | none => simp [emptyNode]
    | some nd => simp
  · simp [h]

/-! ### C1: termination of `node.is` -/

/-- After `X IS X` the parents list of `X` contains `X` itself, and
`X.is("Y")` never reaches a base case: every fuel bound is exhausted. -/
theorem nodeIs_selfLoop_none : ∀ fuel,
    nodeIs [("X", (⟨["X"], []⟩ : NodeRec))] fuel "X" "Y" = none ∧
    nodeIsAny [("X", (⟨["X"], []⟩ : NodeRec))] fuel ["X"] "Y" = none := by
  intro fuel
  induction fuel with
  | zero => exact ⟨rfl, rfl⟩
  | succ f ih =>
    constructor
    · rw [nodeIs, if_neg (by decide : ¬ ("X" = "Y"))]
      have hl : lookupAssoc [("X", (⟨["X"], []⟩ : NodeRec))] "X" =
          some (⟨["X"], []⟩ : NodeRec) := rfl
      rw [hl]
      exact ih.2
    · rw [nodeIsAny, ih.1]

theorem nodeIs_bounded_aux (g : Graph) (m : String → Nat) (K : Nat)
    (hb : ParentsBounded g m) (hK : ∀ e ∈ g, e.2.parents.length ≤ K) :
    ∀ fuel : Nat,
      (∀ n t, m n * (K + 1) < fuel → (nodeIs g fuel n t).isSome) ∧
      (∀ ps t, (∀ p ∈ ps, m p * (K + 1) + ps.length < fuel) →
        (nodeIsAny g fuel ps t).isSome) := by
  intro fuel
  induction fuel with
  | zero =>
    constructor
    · intro n t h
      omega
    · intro ps t h
      cases ps with
      | nil => simp [nodeIsAny]
      | cons p ps' =>
        have := h p (by simp)
        omega
  | succ f ih =>
    constructor
    · intro n t h
      rw [nodeIs]
      by_cases hnt : n = t
      · simp [hnt]
      · rw [if_neg hnt]
        cases hl : lookupAssoc g n with
        | none => simp
        | some nd =>
          simp only []
          apply ih.2
          intro p hp
          have hmem := mem_of_lookupAssoc hl
          have h1 : m p + 1 ≤ m n := hb _ hmem p hp
          have h2 : nd.parents.length ≤ K := hK _ hmem
          have h3 : m p * (K + 1) + (K + 1) ≤ m n * (K + 1) := by
            have hm := Nat.mul_le_mul_right (K + 1) h1
            calc m p * (K + 1) + (K + 1) = (m p + 1) * (K + 1) := by ring
              _ ≤ m n * (K + 1) := hm
          have h4 : m n * (K + 1) ≤ f := Nat.lt_succ_iff.mp h
          calc m p * (K + 1) + nd.parents.length
              < m p * (K + 1) + (K + 1) := Nat.add_lt_add_left (Nat.lt_succ_of_le h2) _
            _ ≤ m n * (K + 1) := h3
            _ ≤ f := h4
    · intro ps t hps
      cases ps with
      | nil => simp [nodeIsAny]
      | cons p ps' =>
        rw [nodeIsAny]
        have hA : (nodeIs g f p t).isSome := by
          apply ih.1
          have h5 := hps p (by simp)
          simp only [List.length_cons] at h5
          omega
        obtain ⟨b, hbv⟩ := Option.isSome_iff_exists.mp hA
        rw [hbv]
        cases b with
        | true => simp
        | false =>
          simp only []
          apply ih.2
          intro q hq
          have h6 := hps q (List.mem_cons_of_mem _ hq)
          simp only [List.length_cons] at h6 ⊢
          omega

/-- C1 (amended): the ancestry test `n.is(t)` terminates on every graph whose
IS-parent relation admits a strictly decreasing measure (an acyclic graph);
the original claim's inclusion of graphs produced by a direct self-IS fails
(see the counterexample). -/
theorem nodeIs_terminates_of_acyclic (g : Graph) (m : String → Nat) (K : Nat)
    (hb : ParentsBounded g m) (hK : ∀ e ∈ g, e.2.parents.length ≤ K)
    (n t : String) (fuel : Nat) (hf : m n * (K + 1) < fuel) :
    (nodeIs g fuel n t).isSome ∧ isTerminates g n t :=
  have h := (nodeIs_bounded_aux g m K hb hK fuel).1 n t hf
  ⟨h, ⟨fuel, h⟩⟩

def gAcyc : Graph := [("Y", ⟨[], []⟩), ("X", ⟨["Y"], []⟩)]

def mAcyc : String → Nat := fun s => if s = "X" then 1 else 0

/-- Witness for `nodeIs_terminates_of_acyclic` at a concrete acyclic graph. -/
theorem nodeIs_terminates_of_acyclic_witness :
    ParentsBounded gAcyc mAcyc ∧ (∀ e ∈ gAcyc, e.2.parents.length ≤ 1) ∧
      mAcyc "X" * (1 + 1) < 3 ∧
      ((nodeIs gAcyc 3 "X" "Z").isSome ∧ isTerminates gAcyc "X" "Z") :=
  ⟨by unfold ParentsBounded; decide, by decide, by decide,
    nodeIs_terminates_of_acyclic gAcyc mAcyc 1 (by unfold ParentsBounded; decide)
      (by decide) "X" "Z" 3 (by decide)⟩

/-- C1 counterexample: the graph reached by executing `X IS X` from a fresh
interpreter gives `X` itself as a parent, and on it `X.is("Y")` does not
terminate (no fuel bound suffices), contradicting the claim that the lookup
terminates on every reachable graph. -/
theorem nodeIs_selfLoop_counterexample :
    execute (fun _ => 0) 5 [.relation "X" "IS" [.s "X"]] initSt =
      .ok ⟨[("X", ⟨["X"], []⟩)], [], none, 0, []⟩ ∧
    ¬ isTerminates [("X", ⟨["X"], []⟩)] "X" "Y" := by
  refine ⟨rfl, ?_⟩
  rintro ⟨fuel, h⟩
  rw [(nodeIs_selfLoop_none fuel).1] at h
  simp at h

/-! ### C2: role unbinding in executeCustomRelation -/

theorem lookupAssoc_foldl_deleteAssoc_none (roles : List String) (ctx : Ctx) (r : String)
    (h : lookupAssoc ctx r = none) :
    lookupAssoc (roles.foldl deleteAssoc ctx) r = none := by
  induction roles generalizing ctx with
  | nil => exact h
  | cons r0 rs ih =>
    rw [List.foldl_cons]
    exact ih _ (lookupAssoc_none_deleteAssoc _ _ _ h)

theorem lookupAssoc_foldl_deleteAssoc (roles : List String) (r : String)
    (h : r ∈ roles) : ∀ ctx : Ctx, lookupAssoc (roles.foldl deleteAssoc ctx) r = none := by
  induction roles with
  | nil => simp at h
  | cons r0 rs ih =>
    intro ctx
    rw [List.foldl_cons]
    rcases List.mem_cons.mp h with h0 | h1
    · subst h0
      exact lookupAssoc_foldl_deleteAssoc_none _ _ _ (lookupAssoc_deleteAssoc_self _ _)
    · exact ih h1 _

theorem foldl_delCtx_context (roles : List String) (st : St) :
    (roles.foldl delCtx st).context = roles.foldl deleteAssoc st.context := by
  induction roles generalizing st with
  | nil => rfl
  | cons r0 rs ih =>
    rw [List.foldl_cons, List.foldl_cons]
    exact ih _

/-- C2 (amended): when the relation node is tagged RELATION, has a stored
body and a non-empty `_Roles` list, and the invocation returns normally,
every role has been removed from the context.  The original claim's "or an
exception propagated" part fails: there is no try/finally around the body
(see the counterexample). -/
theorem executeCustomRelation_unbinds_on_ok (rng : Nat → ℚ) (fuel : Nat)
    (subject relation : String) (args : List Lit) (st st' : St)
    (r0 : String) (rs : List String) (doBody : List Stmt)
    (hIs : nodeIs st.graph fuel relation "RELATION" = some true)
    (hBody : getProperty st.graph fuel relation "_DoBody" = some (.stmts doBody))
    (hRoles : getProperty st.graph fuel relation "_Roles" = some (.roles (r0 :: rs)))
    (hOk : executeCustomRelation rng (fuel + 1) subject relation args st = .ok st') :
    ∀ role ∈ r0 :: rs, lookupAssoc st'.context role = none := by
  intro role hrole
  rw [executeCustomRelation] at hOk
  cases hrel : lookupAssoc st.graph relation with
  | none =>
    exfalso
    cases fuel with
    | zero => simp [getProperty, getPropertyOwner] at hRoles
    | succ f =>
      rw [getProperty, getPropertyOwner, hrel] at hRoles
      simp at hRoles
  | some nd =>
    rw [hrel] at hOk
    simp only at hOk
    rw [hIs] at hOk
    simp only at hOk
    rw [hBody] at hOk
    simp only at hOk
    rw [hRoles] at hOk
    simp only at hOk
    cases hex : execute rng fuel doBody
        (bindRoles (rs.zip args) (setCtx st r0 (.node subject))) with
    | ok st3 =>
      rw [hex] at hOk
      simp only at hOk
      cases hOk
      rw [foldl_delCtx_context]
      exact lookupAssoc_foldl_deleteAssoc _ _ hrole _
    | err e st3 =>
      rw [hex] at hOk
      simp at hOk
    | timeout =>
      rw [hex] at hOk
      simp at hOk

def rng0 : Nat → ℚ := fun _ => 0

def stC2ok : St :=
  ⟨[("RELATION", ⟨[], []⟩),
    ("Act", ⟨["RELATION"], [("_DoBody", .stmts []), ("_Roles", .roles ["Actor"])]⟩),
    ("S", ⟨[], []⟩)], [], none, 0, []⟩

/-- Witness for `executeCustomRelation_unbinds_on_ok` at a concrete relation
with an empty body that completes normally. -/
theorem executeCustomRelation_unbinds_on_ok_witness :
    nodeIs stC2ok.graph 3 "Act" "RELATION" = some true ∧
    getProperty stC2ok.graph 3 "Act" "_DoBody" = some (.stmts []) ∧
    getProperty stC2ok.graph 3 "Act" "_Roles" = some (.roles ["Actor"]) ∧
    executeCustomRelation rng0 4 "S" "Act" [] stC2ok = .ok stC2ok ∧
    lookupAssoc stC2ok.context "Actor" = none :=
  ⟨rfl, rfl, rfl, rfl,
    executeCustomRelation_unbinds_on_ok rng0 3 "S" "Act" [] stC2ok stC2ok
      "Actor" [] [] rfl rfl rfl rfl "Actor" (by decide)⟩

def stC2err : St :=
  ⟨[("RELATION", ⟨[], []⟩),
    ("Act", ⟨["RELATION"],
      [("_DoBody", .stmts [.expressionPrint (.binary (.num 1) .divide (.num 0))]),
       ("_Roles", .roles ["Actor"])]⟩),
    ("S", ⟨[], []⟩)], [], none, 0, []⟩

/-- C2 counterexample: the body of the custom relation `Act` throws
(division by zero); the invocation finishes by propagating the exception and
the role `Actor` is still bound in the context, contradicting the claim that
roles are unbound when an exception propagates. -/
theorem executeCustomRelation_exception_keeps_binding :
    executeCustomRelation rng0 9 "S" "Act" [] stC2err =
      .err (.songError .divisionByZero)
        ⟨stC2err.graph, [("Actor", Value.node "S")], none, 0, []⟩ ∧
    lookupAssoc [("Actor", Value.node "S")] "Actor" = some (.node "S") :=
  ⟨rfl, rfl⟩

/-! ### C3: `IS T` then `LOSES IS T` -/

theorem getOrCreateNode_of_isSome {g : Graph} {n : String}
    (h : (lookupAssoc g n).isSome) : getOrCreateNode g n = g := by
  rw [getOrCreateNode]
  cases hl : lookupAssoc g n with
  | some nd => rfl
  | none => rw [hl] at h; simp at h

theorem gocSt_of_isSome {st : St} {n : String}
    (h : (lookupAssoc st.graph n).isSome) : gocSt st n = st := by
  unfold gocSt
  rw [getOrCreateNode_of_isSome h]

theorem nodeParents_addParentSt_self (st : St) (c p : String)
    (h : (lookupAssoc st.graph c).isSome) :
    nodeParents (addParentSt st c p).graph c = addParent (nodeParents st.graph c) p := by
  unfold addParentSt nodeParents
  simp only
  rw [lookupAssoc_updateNode, if_pos rfl]
  obtain ⟨nd, hl⟩ := Option.isSome_iff_exists.mp h
  simp [hl]

theorem nodeParents_removeParentSt_self (st : St) (c p : String)
    (h : (lookupAssoc st.graph c).isSome) :
    nodeParents (removeParentSt st c p).graph c = removeParent (nodeParents st.graph c) p := by
  unfold removeParentSt nodeParents
  simp only
  rw [lookupAssoc_updateNode, if_pos rfl]
  obtain ⟨nd, hl⟩ := Option.isSome_iff_exists.mp h
  simp [hl]

theorem addParent_not_mem (l : List String) (p : String) (h : p ∉ l) :
    addParent l p = l ++ [p] := by
  rw [addParent, if_neg h]

theorem erase_append_not_mem (l : List String) (p : String) (h : p ∉ l) :
    (l ++ [p]).erase p = l := by
  rw [List.erase_append_right _ h]
  simp

/-- C3 (amended): `S IS T` followed by `S LOSES IS T` restores S's parents
list provided T was not already among S's parents.  When T was already a
parent the sequence removes the pre-existing entry (see the
counterexample). -/
theorem executeIs_then_loses_restores (rng : Nat → ℚ) (fuel : Nat) (st : St)
    (S T : String)
    (hS : lookupAssoc st.context S = none) (hT : lookupAssoc st.context T = none)
    (hTp : T ∉ nodeParents st.graph S) :
    ∃ st2, execute rng (fuel + 4) [.relation S "IS" [.s T], .loses S T .isTy] st = .ok st2 ∧
      nodeParents st2.graph S = nodeParents st.graph S := by
  have hUp : upperEq "IS" "IS" = true := rfl
  -- the state after `S IS T`
  set stA := addParentSt (gocSt (gocSt st S) T) S T with hstA
  have hCtxA : stA.context = st.context := rfl
  have hSsomeGG : (lookupAssoc (gocSt (gocSt st S) T).graph S).isSome := by
    show (lookupAssoc (getOrCreateNode (getOrCreateNode st.graph S) T) S).isSome
    by_cases hST : S = T
    · subst hST
      rw [lookupAssoc_goc_self]
      simp
    · rw [lookupAssoc_goc_ne _ _ _ hST, lookupAssoc_goc_self]
      simp
  have hCtx1 : (gocSt st S).context = st.context := rfl
  have h1 : executeStatement rng (fuel + 3) (.relation S "IS" [.s T]) st = .ok stA := by
    rw [executeStatement]
    simp only [executeRelation, resolveNode, hS, hUp, if_true]
    simp only [executeIs, List.head?, litToName, resolveNode, hCtx1, hT]
  have hParA : nodeParents stA.graph S = nodeParents st.graph S ++ [T] := by
    rw [hstA, nodeParents_addParentSt_self _ _ _ hSsomeGG]
    have : nodeParents (gocSt (gocSt st S) T).graph S = nodeParents st.graph S := by
      show nodeParents (getOrCreateNode (getOrCreateNode st.graph S) T) S = _
      rw [nodeParents_goc, nodeParents_goc]
    rw [this, addParent_not_mem _ _ hTp]
  have hSsomeA : (lookupAssoc stA.graph S).isSome := by
    rw [hstA]
    show (lookupAssoc (updateNode _ S _) S).isSome
    rw [lookupAssoc_updateNode, if_pos rfl]
    obtain ⟨nd, hl⟩ := Option.isSome_iff_exists.mp hSsomeGG
    simp [hl]
  have hTsomeA : (lookupAssoc stA.graph T).isSome := by
    by_cases hTS : T = S
    · rw [hTS]
      exact hSsomeA
    · rw [hstA]
      show (lookupAssoc (updateNode _ S _) T).isSome
      rw [lookupAssoc_updateNode, if_neg hTS]
      show (lookupAssoc (getOrCreateNode (getOrCreateNode st.graph S) T) T).isSome
      rw [lookupAssoc_goc_self]
      simp
  have h2 : executeStatement rng (fuel + 2) (.loses S T .isTy) stA =
      .ok (removeParentSt stA S T) := by
    rw [executeStatement]
    simp only [executeLoses, resolveNode, hCtxA, hS, gocSt_of_isSome hSsomeA]
    simp only [resolveNodeOrNull, hCtxA, hT]
    obtain ⟨nd, hl⟩ := Option.isSome_iff_exists.mp hTsomeA
    simp [hl]
  refine ⟨removeParentSt stA S T, ?_, ?_⟩
  · rw [execute, h1]
    simp only
    rw [execute, h2]
    simp only
    rw [execute]
  · rw [nodeParents_removeParentSt_self _ _ _ hSsomeA, hParA, removeParent,
      erase_append_not_mem _ _ hTp]

def stC3 : St := ⟨[("T", ⟨[], []⟩), ("S", ⟨["T"], []⟩)], [], none, 0, []⟩

/-- Witness for `executeIs_then_loses_restores`: S initially has no parents. -/
theorem executeIs_then_loses_restores_witness :
    lookupAssoc (initSt.context) "S" = none ∧
    lookupAssoc (initSt.context) "T" = none ∧
    "T" ∉ nodeParents initSt.graph "S" ∧
    (∃ st2, execute rng0 5 [.relation "S" "IS" [.s "T"], .loses "S" "T" .isTy] initSt = .ok st2 ∧
      nodeParents st2.graph "S" = nodeParents initSt.graph "S") :=
  ⟨rfl, rfl, by decide,
    executeIs_then_loses_restores rng0 1 initSt "S" "T" rfl rfl (by decide)⟩

/-- C3 counterexample: when T is already a parent of S, `S IS T` is a no-op
(idempotent addParent) but `S LOSES IS T` removes the pre-existing parent
entry: the final parents list is `[]`, not the prior `["T"]`. -/
theorem executeIs_then_loses_changes_parents :
    nodeParents stC3.graph "S" = ["T"] ∧
    execute rng0 5 [.relation "S" "IS" [.s "T"], .loses "S" "T" .isTy] stC3 =
      .ok ⟨[("T", ⟨[], []⟩), ("S", ⟨[], []⟩)], [], none, 0, []⟩ ∧
    nodeParents [("T", (⟨[], []⟩ : NodeRec)), ("S", ⟨[], []⟩)] "S" = [] :=
  ⟨rfl, rfl, rfl⟩

/-! ### C4: CAN and the inherited `_Abilities` owner -/

theorem getPropertyOwner_found (g : Graph) :
    ∀ fuel : Nat,
      (∀ n k o v, getPropertyOwner g fuel n k = some (some (o, v)) →
        ∃ nd, lookupAssoc g o = some nd ∧ lookupAssoc nd.props k = some v) ∧
      (∀ ps k o v, getPropertyOwnerParents g fuel ps k = some (some (o, v)) →
        ∃ nd, lookupAssoc g o = some nd ∧ lookupAssoc nd.props k = some v) := by
  intro fuel
  induction fuel with
  | zero =>
    constructor
    · intro n k o v h
      simp [getPropertyOwner] at h
    · intro ps k o v h
      simp [getPropertyOwnerParents] at h
  | succ f ih =>
    constructor
    · intro n k o v h
      rw [getPropertyOwner] at h
      cases hl : lookupAssoc g n with
      | none => rw [hl] at h; simp at h
      | some nd =>
        rw [hl] at h
        simp only at h
        cases hp : lookupAssoc nd.props k with
        | some v' =>
          rw [hp] at h
          simp only [Option.some.injEq, Prod.mk.injEq] at h
          obtain ⟨ho, hv⟩ := h
          subst ho
          subst hv
          exact ⟨nd, hl, hp⟩
        | none =>
          rw [hp] at h
          exact ih.2 _ _ _ _ h
    · intro ps k o v h
      cases ps with
      | nil => simp [getPropertyOwnerParents] at h
      | cons p ps' =>
        rw [getPropertyOwnerParents] at h
        cases hp : getPropertyOwner g f p k with
        | none => rw [hp] at h; simp at h
        | some res =>
          rw [hp] at h
          cases res with
          | none =>
            simp only at h
            exact ih.2 _ _ _ _ h
          | some ov =>
            simp only at h
            by_cases hn : isNullV ov.2
            · rw [if_pos hn] at h
              exact ih.2 _ _ _ _ h
            · rw [if_neg hn] at h
              simp only [Option.some.injEq] at h
              obtain rfl : ov = (o, v) := h
              exact ih.1 _ _ _ _ hp

/-- C4 (amended): `S CAN a` inserts the ability into the `_Abilities` set
found by the inherited `getProperty` walk — the node owning that set (which
can be an ancestor of S, not S itself) is the node whose property changes;
every other node keeps its record.  The original claim that only S changes
fails (see the counterexample). -/
theorem executeCan_mutates_owner (fuel : Nat) (st : St) (subjectRaw ability : String)
    (owner : String) (l : List String)
    (hCtx : lookupAssoc st.context subjectRaw = none)
    (hOwner : getPropertyOwner (gocSt st subjectRaw).graph fuel subjectRaw "_Abilities" =
      some (some (owner, .strSet l))) :
    ∃ st', executeCan fuel subjectRaw ability st = .ok st' ∧
      st'.context = st.context ∧
      getOwnProp st'.graph owner "_Abilities" = some (.strSet (setAdd l ability)) ∧
      ∀ n, n ≠ owner → lookupAssoc st'.graph n = lookupAssoc (gocSt st subjectRaw).graph n := by
  refine ⟨setPropSt (gocSt st subjectRaw) owner "_Abilities" (.strSet (setAdd l ability)),
    ?_, rfl, ?_, ?_⟩
  · rw [executeCan]
    simp only [resolveNode, hCtx]
    rw [hOwner]
  · obtain ⟨nd, hlo, _⟩ := (getPropertyOwner_found _ fuel).1 _ _ _ _ hOwner
    unfold getOwnProp setPropSt
    simp only
    rw [lookupAssoc_updateNode, if_pos rfl, hlo]
    simp [lookupAssoc_setAssoc_self]
  · intro n hn
    unfold setPropSt
    simp only
    rw [lookupAssoc_updateNode, if_neg hn]

def stC4 : St :=
  ⟨[("P", ⟨[], [("_Abilities", .strSet ["x"])]⟩), ("S", ⟨["P"], []⟩)], [], none, 0, []⟩

/-- Witness for `executeCan_mutates_owner` at a concrete two-node graph
where the parent owns the set. -/
theorem executeCan_mutates_owner_witness :
    lookupAssoc stC4.context "S" = none ∧
    getPropertyOwner (gocSt stC4 "S").graph 3 "S" "_Abilities" =
      some (some ("P", .strSet ["x"])) ∧
    (∃ st', executeCan 3 "S" "fly" stC4 = .ok st' ∧
      st'.context = stC4.context ∧
      getOwnProp st'.graph "P" "_Abilities" = some (.strSet (setAdd ["x"] "fly")) ∧
      ∀ n, n ≠ "P" → lookupAssoc st'.graph n = lookupAssoc (gocSt stC4 "S").graph n) :=
  ⟨rfl, rfl, executeCan_mutates_owner 3 stC4 "S" "fly" "P" ["x"] rfl rfl⟩

/-- C4 counterexample: with `S IS P` and the abilities set owned by `P`,
`S CAN fly` mutates P's `_Abilities` (P gains "fly") while S still has no
own `_Abilities` — contradicting the claim that the ability lands in S's own
set and that no node other than S changes. -/
theorem executeCan_changes_ancestor :
    executeCan 5 "S" "fly" stC4 =
      .ok ⟨[("P", ⟨[], [("_Abilities", .strSet ["x", "fly"])]⟩), ("S", ⟨["P"], []⟩)],
        [], none, 0, []⟩ ∧
    getOwnProp [("P", (⟨[], [("_Abilities", Value.strSet ["x", "fly"])]⟩ : NodeRec)),
        ("S", ⟨["P"], []⟩)] "P" "_Abilities" = some (.strSet ["x", "fly"]) ∧
    getOwnProp [("P", (⟨[], [("_Abilities", Value.strSet ["x", "fly"])]⟩ : NodeRec)),
        ("S", ⟨["P"], []⟩)] "S" "_Abilities" = none :=
  ⟨rfl, rfl, rfl⟩

/-! ### C5: the WHERE filter -/

/-- The draw counter carried by an evaluation result (`d` on timeout). -/
def rixAfter : EvalR → Nat → Nat
  | .ok _ r, _ => r
  | .err _ r, _ => r
  | .timeout, d => d

theorem resolveIdentifier_rixAfter (fuel : Nat) (g : Graph) (ctx : Ctx)
    (ws : Option String) (name : String) (rix : Nat) :
    rixAfter (resolveIdentifier fuel g ctx ws name rix) rix = rix := by
  unfold resolveIdentifier
  repeat' split
  all_goals simp [rixAfter]

theorem evalBinOp_rixAfter (g : Graph) (fuel : Nat) (op : BinaryOperator)
    (lv rv : Value) (rix : Nat) :
    rixAfter (evalBinOp g fuel op lv rv rix) rix = rix := by
  cases op <;> (unfold evalBinOp; repeat' split) <;> simp [rixAfter]

theorem evaluateExpression_noRandom_rix (rng : Nat → ℚ) (fuel : Nat) (g : Graph)
    (ctx : Ctx) (ws : Option String) (e : Expr) :
    noRandom e = true → ∀ rix : Nat,
      rixAfter (evaluateExpression rng fuel g ctx ws e rix) rix = rix := by
  induction e with
  | num q => intro h rix; simp [evaluateExpression, rixAfter]
  | str s_ => intro h rix; simp [evaluateExpression, rixAfter]
  | ident name =>
    intro h rix
    rw [evaluateExpression]
    exact resolveIdentifier_rixAfter fuel g ctx ws name rix
  | propAccess obj prop ihobj =>
    intro h rix
    rw [noRandom] at h
    rw [evaluateExpression]
    cases hres : evaluateExpression rng fuel g ctx ws obj rix with
    | timeout => simp [hres, rixAfter]
    | err e1 r1 =>
      have h1 := ihobj h rix
      rw [hres] at h1
      simp only [rixAfter] at h1
      simp [hres, rixAfter, h1]
    | ok v1 r1 =>
      have h1 := ihobj h rix
      rw [hres] at h1
      simp only [rixAfter] at h1
      rw [h1]
      repeat' split
      all_goals simp_all [rixAfter]
  | binary lhs op rhs ihl ihr =>
    intro h rix
    rw [noRandom, Bool.and_eq_true] at h
    obtain ⟨hl, hr⟩ := h
    cases op
    case land =>
      simp only [evaluateExpression]
      cases hres : evaluateExpression rng fuel g ctx ws lhs rix with
      | timeout => simp [rixAfter]
      | err e1 r1 =>
        have h1 := ihl hl rix; rw [hres] at h1; simp only [rixAfter] at h1
        simp [rixAfter, h1]
      | ok v1 r1 =>
        have h1 := ihl hl rix; rw [hres] at h1; simp only [rixAfter] at h1
        rw [h1]
        by_cases ht : isTruthy v1
        · simp only [ht, Bool.not_true, Bool.false_eq_true, if_false]
          cases hres2 : evaluateExpression rng fuel g ctx ws rhs rix with
          | timeout => simp [hres2, rixAfter]
          | err e2 r2 =>
            have h2 := ihr hr rix; rw [hres2] at h2; simp only [rixAfter] at h2
            simp [hres2, rixAfter, h2]
          | ok v2 r2 =>
            have h2 := ihr hr rix; rw [hres2] at h2; simp only [rixAfter] at h2
            simp [hres2, rixAfter, h2]
        · simp only [Bool.not_eq_true] at ht
          simp [ht, rixAfter]
    case lor =>
      simp only [evaluateExpression]
      cases hres : evaluateExpression rng fuel g ctx ws lhs rix with
      | timeout => simp [rixAfter]
      | err e1 r1 =>
        have h1 := ihl hl rix; rw [hres] at h1; simp only [rixAfter] at h1
        simp [rixAfter, h1]
      | ok v1 r1 =>
        have h1 := ihl hl rix; rw [hres] at h1; simp only [rixAfter] at h1
        rw [h1]
        by_cases ht : isTruthy v1
        · simp [ht, rixAfter]
        · simp only [Bool.not_eq_true] at ht
          simp only [ht, Bool.false_eq_true, if_false]
          cases hres2 : evaluateExpression rng fuel g ctx ws rhs rix with
          | timeout => simp [hres2, rixAfter]
          | err e2 r2 =>
            have h2 := ihr hr rix; rw [hres2] at h2; simp only [rixAfter] at h2
            simp [hres2, rixAfter, h2]
          | ok v2 r2 =>
            have h2 := ihr hr rix; rw [hres2] at h2; simp only [rixAfter] at h2
            simp [hres2, rixAfter, h2]
    all_goals (
      simp only [evaluateExpression]
      cases hres : evaluateExpression rng fuel g ctx ws lhs rix with
      | timeout => simp [rixAfter]
      | err e1 r1 =>
        have h1 := ihl hl rix
        rw [hres] at h1
        simp only [rixAfter] at h1
        simp [rixAfter, h1]
      | ok v1 r1 =>
        have h1 := ihl hl rix
        rw [hres] at h1
        simp only [rixAfter] at h1
        rw [h1]
        cases hres2 : evaluateExpression rng fuel g ctx ws rhs rix with
        | timeout => simp [hres2, rixAfter]
        | err e2 r2 =>
          have h2 := ihr hr rix
          rw [hres2] at h2
          simp only [rixAfter] at h2
          simp [hres2, rixAfter, h2]
        | ok v2 r2 =>
          have h2 := ihr hr rix
          rw [hres2] at h2
          simp only [rixAfter] at h2
          rw [h2] at hres2
          simp only [hres2]
          exact evalBinOp_rixAfter g fuel _ v1 v2 rix)
  | unary op e ihe =>
    intro h rix
    rw [noRandom] at h
    rw [evaluateExpression]
    cases hres : evaluateExpression rng fuel g ctx ws e rix with
    | timeout => simp [hres, rixAfter]
    | err e1 r1 =>
      have h1 := ihe h rix; rw [hres] at h1; simp only [rixAfter] at h1
      simp [hres, rixAfter, h1]
    | ok v1 r1 =>
      have h1 := ihe h rix; rw [hres] at h1; simp only [rixAfter] at h1
      rw [h1]
      repeat' split
      all_goals simp_all [rixAfter]
  | grouping e ihe =>
    intro h rix
    rw [noRandom] at h
    rw [evaluateExpression]
    exact ihe h rix
  | random mn mx ihmn ihmx =>
    intro h rix
    simp [noRandom] at h

/-- C5 (amended): with the query variable unbound and a RANDOM-free WHERE
expression, the reported list contains exactly the candidates whose
evaluation succeeds with a boolean `true` or a non-zero number; candidates
whose evaluation yields any other value — including node references and
non-empty strings, which are truthy under §4.5 — are excluded, and
evaluation errors exclude silently.  The context and state are restored.
The original claim's full-truthiness rule fails (see the counterexample). -/
theorem filterByWhereCondition_keeps_bool_or_number (rng : Nat → ℚ) (fuel : Nat)
    (varName : String) (wc : Expr) (nodes : List String) (st : St)
    (hnr : noRandom wc = true)
    (hvar : lookupAssoc st.context varName = none)
    (hnt : ∀ n ∈ nodes,
      evaluateExpression rng fuel st.graph (setAssoc st.context varName (.node n))
        st.whenSubject wc st.rix ≠ .timeout) :
    filterByWhereCondition rng fuel varName wc nodes st =
      some (nodes.filter (evalKeep rng fuel st varName wc), st) := by
  obtain ⟨g, c, w, r, o⟩ := st
  simp only at hvar hnt ⊢
  induction nodes with
  | nil => rfl
  | cons n ns ih =>
    rw [filterByWhereCondition]
    simp only [evalE, setCtx]
    have hnn := hnt n (List.mem_cons_self n ns)
    have hst2 : delCtx (withRix (⟨g, setAssoc c varName (.node n), w, r, o⟩ : St) r) varName =
        (⟨g, c, w, r, o⟩ : St) := by
      simp [delCtx, withRix, deleteAssoc_setAssoc_of_none _ _ _ hvar]
    have hkeep : ∀ res, evaluateExpression rng fuel g (setAssoc c varName (.node n)) w wc r = res →
        evalKeep rng fuel ⟨g, c, w, r, o⟩ varName wc n =
          (match res with | .ok v _ => whereKeep v | _ => false) := by
      intro res hres
      unfold evalKeep
      simp only
      rw [hres]
    cases hres : evaluateExpression rng fuel g (setAssoc c varName (.node n)) w wc r with
    | timeout => exact absurd hres hnn
    | ok v rv =>
      have hrv : rv = r := by
        have hx := evaluateExpression_noRandom_rix rng fuel g (setAssoc c varName (.node n)) w wc hnr r
        rw [hres] at hx
        simpa [rixAfter] using hx
      subst hrv
      simp only [hst2]
      rw [ih (fun q hq => hnt q (List.mem_cons_of_mem _ hq))]
      simp [List.filter_cons, hkeep _ hres]
    | err er rv =>
      have hrv : rv = r := by
        have hx := evaluateExpression_noRandom_rix rng fuel g (setAssoc c varName (.node n)) w wc hnr r
        rw [hres] at hx
        simpa [rixAfter] using hx
      subst hrv
      simp only [hst2]
      rw [ih (fun q hq => hnt q (List.mem_cons_of_mem _ hq))]
      simp [List.filter_cons, hkeep _ hres]

def stC5 : St := ⟨[("A", ⟨[], []⟩)], [], none, 0, []⟩

/-- Witness for `filterByWhereCondition_keeps_bool_or_number`: a WHERE
condition evaluating to the number 1 keeps the candidate. -/
theorem filterByWhereCondition_keeps_bool_or_number_witness :
    noRandom (.num 1) = true ∧
    lookupAssoc stC5.context "m" = none ∧
    filterByWhereCondition rng0 3 "m" (.num 1) ["A"] stC5 =
      some (["A"].filter (evalKeep rng0 3 stC5 "m" (.num 1)), stC5) :=
  ⟨rfl, rfl,
    filterByWhereCondition_keeps_bool_or_number rng0 3 "m" (.num 1) ["A"] stC5 rfl rfl
      (fun n hn => by cases hn <;> simp [evaluateExpression])⟩

/-- C5 counterexample: a WHERE condition that evaluates to the non-empty
string "yes" — truthy under the §4.5 rule — nevertheless excludes the
candidate: the reported list is empty, contradicting the claim that the
result contains exactly the truthy candidates. -/
theorem filterByWhereCondition_drops_truthy_string :
    filterByWhereCondition rng0 3 "m" (.str "yes") ["A"] stC5 = some ([], stC5) ∧
    isTruthy (.str "yes") = true :=
  ⟨rfl, rfl⟩

/-! ### C6: HAS with no value versus the legacy HAS condition -/

/-- C6 (amended): after `X HAS P` with no value, the stored value is null,
and the legacy WHEN condition `X HAS P` evaluates to false — the presence
test `propValue !== null` rejects the stored null — so the guarded body does
not execute.  The original claim that the condition is true fails. -/
theorem executeHas_null_then_condition_false (rng : Nat → ℚ) (fuel : Nat)
    (st : St) (X P : String) (body : List Stmt)
    (hX : lookupAssoc st.context X = none) :
    ∃ st1, executeStatement rng (fuel + 2) (.relation X "HAS" [.s P]) st = .ok st1 ∧
      getOwnProp st1.graph X P = some .null ∧
      evaluateCondition (fuel + 1) st1.graph (.relation X "HAS" [.s P]) = some false ∧
      executeWhen rng (fuel + 2) (.relation X "HAS" [.s P]) body st1 = .ok st1 := by
  have e1 : upperEq "HAS" "IS" = false := rfl
  have e2 : upperEq "HAS" "HAS" = true := rfl
  refine ⟨setPropSt (gocSt st X) X P .null, ?_, ?_, ?_, ?_⟩
  · rw [executeStatement]
    simp only [executeRelation, resolveNode, hX, e1, e2, Bool.false_eq_true, if_false, if_true]
    simp [executeHas, litToName]
  · unfold getOwnProp setPropSt gocSt
    simp only
    rw [lookupAssoc_updateNode, if_pos rfl, lookupAssoc_goc_self]
    simp [lookupAssoc_setAssoc_self]
  · have hlook : lookupAssoc (setPropSt (gocSt st X) X P .null).graph X =
        some { ((lookupAssoc st.graph X).getD emptyNode) with
          props := setAssoc ((lookupAssoc st.graph X).getD emptyNode).props P .null } := by
      unfold setPropSt gocSt
      simp only
      rw [lookupAssoc_updateNode, if_pos rfl, lookupAssoc_goc_self]
      rfl
    rw [evaluateCondition, hlook]
    simp only [e2, if_true]
    rw [evaluateHasCondition]
    simp only [List.head?, litToName]
    have hgp : getProperty (setPropSt (gocSt st X) X P .null).graph (fuel + 1) X P =
        some .null := by
      rw [getProperty, getPropertyOwner, hlook]
      simp [lookupAssoc_setAssoc_self]
    rw [hgp]
    simp [isNullV]
  · rw [executeWhen]
    have hlook : lookupAssoc (setPropSt (gocSt st X) X P .null).graph X =
        some { ((lookupAssoc st.graph X).getD emptyNode) with
          props := setAssoc ((lookupAssoc st.graph X).getD emptyNode).props P .null } := by
      unfold setPropSt gocSt
      simp only
      rw [lookupAssoc_updateNode, if_pos rfl, lookupAssoc_goc_self]
      rfl
    rw [evaluateCondition, hlook]
    simp only [e2, if_true]
    rw [evaluateHasCondition]
    simp only [List.head?, litToName]
    have hgp : getProperty (setPropSt (gocSt st X) X P .null).graph (fuel + 1) X P =
        some .null := by
      rw [getProperty, getPropertyOwner, hlook]
      simp [lookupAssoc_setAssoc_self]
    rw [hgp]
    simp [isNullV]

/-- Witness for `executeHas_null_then_condition_false` at a fresh state. -/
theorem executeHas_null_then_condition_false_witness :
    lookupAssoc initSt.context "X" = none ∧
    (∃ st1, executeStatement rng0 4 (.relation "X" "HAS" [.s "P"]) initSt = .ok st1 ∧
      getOwnProp st1.graph "X" "P" = some .null ∧
      evaluateCondition 3 st1.graph (.relation "X" "HAS" [.s "P"]) = some false ∧
      executeWhen rng0 4 (.relation "X" "HAS" [.s "P"]) [.can "X" "x"] st1 = .ok st1) :=
  ⟨rfl, executeHas_null_then_condition_false rng0 2 initSt "X" "P" [.can "X" "x"] rfl⟩

/-- C6 counterexample: concretely, `X HAS P` stores null, the condition
`X HAS P` evaluates to false, and the legacy WHEN statement leaves the state
unchanged (the body `X CAN x` is not executed). -/
theorem executeHas_null_condition_false_concrete :
    executeStatement rng0 4 (.relation "X" "HAS" [.s "P"]) initSt =
      .ok ⟨[("X", ⟨[], [("P", .null)]⟩)], [], none, 0, []⟩ ∧
    evaluateCondition 3 [("X", ⟨[], [("P", Value.null)]⟩)]
      (.relation "X" "HAS" [.s "P"]) = some false ∧
    executeStatement rng0 6
      (.whenStmt (.relation "X" "HAS" [.s "P"]) [.can "X" "x"])
      ⟨[("X", ⟨[], [("P", .null)]⟩)], [], none, 0, []⟩ =
      .ok ⟨[("X", ⟨[], [("P", .null)]⟩)], [], none, 0, []⟩ :=
  ⟨rfl, rfl, rfl⟩

/-! ### C7: RANDOM bounds -/

theorem ratFloor_eq (q : ℚ) : Rat.floor q = ⌊q⌋ := by
  rw [Rat.floor_def', Rat.floor_def]

/-- C7 (amended): when `⌊a⌋ ≤ ⌊b⌋` and the draw u lies in [0,1), the RANDOM
result lies in the inclusive range `[⌊a⌋, ⌊b⌋]`, and `RANDOM a a` always
returns `⌊a⌋`.  The original claim, quantified over all numeric endpoints,
fails when a > b (see the counterexample). -/
theorem evaluateRandom_bounds (a b u : ℚ) (h0 : 0 ≤ u) (h1 : u < 1)
    (hab : Rat.floor a ≤ Rat.floor b) :
    (Rat.floor a ≤ evaluateRandom a b u ∧ evaluateRandom a b u ≤ Rat.floor b) ∧
      evaluateRandom a a u = Rat.floor a := by
  have hfloor : ∀ q : ℚ, Rat.floor q = ⌊q⌋ := ratFloor_eq
  constructor
  · unfold evaluateRandom
    rw [hfloor a, hfloor b, hfloor (u * ((⌊b⌋ : ℚ) - (⌊a⌋ : ℚ) + 1))]
    have hn : (1 : ℚ) ≤ (⌊b⌋ : ℚ) - (⌊a⌋ : ℚ) + 1 := by
      have : (⌊a⌋ : ℚ) ≤ (⌊b⌋ : ℚ) := by exact_mod_cast hab
      linarith
    have hnpos : (0 : ℚ) < (⌊b⌋ : ℚ) - (⌊a⌋ : ℚ) + 1 := lt_of_lt_of_le one_pos hn
    have hk0 : 0 ≤ ⌊u * ((⌊b⌋ : ℚ) - (⌊a⌋ : ℚ) + 1)⌋ :=
      Int.floor_nonneg.mpr (mul_nonneg h0 (le_of_lt hnpos))
    have hklt : ⌊u * ((⌊b⌋ : ℚ) - (⌊a⌋ : ℚ) + 1)⌋ < ⌊b⌋ - ⌊a⌋ + 1 := by
      rw [Int.floor_lt]
      push_cast
      calc u * ((⌊b⌋ : ℚ) - (⌊a⌋ : ℚ) + 1) < 1 * ((⌊b⌋ : ℚ) - (⌊a⌋ : ℚ) + 1) := by
            exact mul_lt_mul_of_pos_right h1 hnpos
        _ = (⌊b⌋ : ℚ) - (⌊a⌋ : ℚ) + 1 := one_mul _
    omega
  · unfold evaluateRandom
    rw [hfloor a, hfloor (u * ((⌊a⌋ : ℚ) - (⌊a⌋ : ℚ) + 1))]
    have : (⌊a⌋ : ℚ) - (⌊a⌋ : ℚ) + 1 = 1 := by ring
    rw [this, mul_one]
    have hfz : ⌊u⌋ = 0 := Int.floor_eq_zero_iff.mpr ⟨h0, h1⟩
    omega

/-- Witness for `evaluateRandom_bounds` at a = 3, b = 7, u = 1/2. -/
theorem evaluateRandom_bounds_witness :
    ((0 : ℚ) ≤ 1 / 2 ∧ (1 : ℚ) / 2 < 1 ∧ Rat.floor (3 : ℚ) ≤ Rat.floor (7 : ℚ)) ∧
    ((Rat.floor (3 : ℚ) ≤ evaluateRandom 3 7 (1 / 2) ∧
      evaluateRandom 3 7 (1 / 2) ≤ Rat.floor (7 : ℚ)) ∧
      evaluateRandom 3 3 (1 / 2) = Rat.floor (3 : ℚ)) :=
  ⟨⟨by norm_num, by norm_num, by rw [ratFloor_eq, ratFloor_eq]; norm_num⟩,
    evaluateRandom_bounds 3 7 (1 / 2) (by norm_num) (by norm_num)
      (by rw [ratFloor_eq, ratFloor_eq]; norm_num)⟩

/-- C7 counterexample: `RANDOM 5 3` (endpoints numeric, a > b) with the draw
u = 0 evaluates — through the interpreter's expression evaluator — to 5,
and 5 is not ≤ ⌊3⌋ = 3: the claimed bound `⌊a⌋ ≤ r ≤ ⌊b⌋` fails at this
evaluation. -/
theorem evaluateRandom_gt_counterexample :
    evaluateExpression rng0 3 [] [] none (.random (.num 5) (.num 3)) 0 =
      .ok (.num ((evaluateRandom 5 3 0 : ℤ) : ℚ)) 1 ∧
    evaluateRandom 5 3 0 = 5 ∧
    ¬ (Rat.floor (5 : ℚ) ≤ evaluateRandom 5 3 0 ∧
        evaluateRandom 5 3 0 ≤ Rat.floor (3 : ℚ)) := by
  have h5 : evaluateRandom 5 3 0 = 5 := by
    unfold evaluateRandom
    rw [ratFloor_eq, ratFloor_eq, ratFloor_eq]
    norm_num
  refine ⟨rfl, h5, ?_⟩
  rw [h5, ratFloor_eq, ratFloor_eq]
  norm_num

/-! ### C8: CHANCE 0 and CHANCE 100 -/

/-- C8: `CHANCE 0 DO X END` never executes X (the else branch runs when
present) and `CHANCE 100 DO X END` always executes X, for every draw of the
uniform source in [0,1): the roll `⌊u·100⌋` lies in [0,99], so `roll < 0`
is impossible and `roll < 100` always holds. -/
theorem executeChance_zero_hundred (rng : Nat → ℚ) (fuel : Nat) (st : St)
    (body elseB : List Stmt)
    (h0 : 0 ≤ rng st.rix) (h1 : rng st.rix < 1) :
    executeChance rng (fuel + 1) (.num 0) body (some elseB) st =
      execute rng fuel elseB (withRix st (st.rix + 1)) ∧
    executeChance rng (fuel + 1) (.num 0) body none st = .ok (withRix st (st.rix + 1)) ∧
    ∀ eb, executeChance rng (fuel + 1) (.num 100) body eb st =
      execute rng fuel body (withRix st (st.rix + 1)) := by
  have hroll0 : ¬ (((Rat.floor (rng st.rix * 100) : ℤ) : ℚ) < 0) := by
    rw [ratFloor_eq, Int.cast_lt_zero]
    exact not_lt.mpr (Int.floor_nonneg.mpr (by positivity))
  have hroll100 : ((Rat.floor (rng st.rix * 100) : ℤ) : ℚ) < 100 := by
    rw [ratFloor_eq]
    have : ⌊rng st.rix * 100⌋ < 100 := by
      rw [Int.floor_lt]
      push_cast
      nlinarith
    exact_mod_cast this
  refine ⟨?_, ?_, ?_⟩
  · rw [executeChance]
    simp only [evalE, evaluateExpression, toNumber]
    rw [if_neg hroll0]
  · rw [executeChance]
    simp only [evalE, evaluateExpression, toNumber]
    rw [if_neg hroll0]
  · intro eb
    rw [executeChance]
    simp only [evalE, evaluateExpression, toNumber]
    rw [if_pos hroll100]

def rngHalf : Nat → ℚ := fun _ => 1 / 2

/-- Witness for `executeChance_zero_hundred` with the draw 1/2. -/
theorem executeChance_zero_hundred_witness :
    (0 ≤ rngHalf initSt.rix ∧ rngHalf initSt.rix < 1) ∧
    executeChance rngHalf 3 (.num 0) [.can "A" "x"] (some []) initSt =
      execute rngHalf 2 [] (withRix initSt (initSt.rix + 1)) :=
  ⟨⟨by norm_num [rngHalf], by norm_num [rngHalf]⟩,
    (executeChance_zero_hundred rngHalf 2 initSt [.can "A" "x"] []
      (by norm_num [rngHalf]) (by norm_num [rngHalf])).1⟩

/-! ### C10: legacy WHEN with an unknown subject -/

/-- C10: a legacy WHEN whose relation-shaped condition names a subject that
is not a graph node evaluates the condition to false via `getNode` — the
subject is never created — so the body is not executed, no error is raised
and the state (graph included) is unchanged. -/
theorem executeWhen_unknown_subject (rng : Nat → ℚ) (fuel : Nat) (st : St)
    (subject relation : String) (args : List Lit) (body : List Stmt)
    (h : lookupAssoc st.graph subject = none) :
    executeStatement rng (fuel + 2) (.whenStmt (.relation subject relation args) body) st =
      .ok st := by
  rw [executeStatement]
  simp only [executeWhen, evaluateCondition, h]

/-- Witness for `executeWhen_unknown_subject`: unknown subject "G", the
body is not run and the state is returned unchanged. -/
theorem executeWhen_unknown_subject_witness :
    lookupAssoc initSt.graph "G" = none ∧
    executeStatement rng0 5 (.whenStmt (.relation "G" "IS" [.s "T"]) [.can "G" "x"]) initSt =
      .ok initSt :=
  ⟨rfl, executeWhen_unknown_subject rng0 3 initSt "G" "IS" [.s "T"] [.can "G" "x"] rfl⟩

/-! ### C9: the duplicate-free parents invariant -/

theorem nodup_addParent (l : List String) (p : String) (h : l.Nodup) :
    (addParent l p).Nodup := by
  rw [addParent]
  by_cases hp : p ∈ l
  · rw [if_pos hp]; exact h
  · rw [if_neg hp]
    simp [List.nodup_append, h, hp]

theorem nodup_removeParent (l : List String) (p : String) (h : l.Nodup) :
    (removeParent l p).Nodup := by
  rw [removeParent]
  exact h.erase p

theorem GraphWF_updateNode {g : Graph} (k : String) (f : NodeRec → NodeRec)
    (hg : GraphWF g) (hf : ∀ nd, nd.parents.Nodup → (f nd).parents.Nodup) :
    GraphWF (updateNode g k f) := by
  induction g with
  | nil => intro e he; simp [updateNode] at he
  | cons e rest ih =>
    have hrest : GraphWF rest := fun x hx => hg x (List.mem_cons_of_mem _ hx)
    have hihk := ih hrest
    intro e' he'
    rw [updateNode] at he'
    by_cases he1 : e.1 = k
    · rw [if_pos he1] at he'
      rcases List.mem_cons.mp he' with h1 | h2
      · subst h1
        exact hf e.2 (hg e (List.mem_cons_self e rest))
      · exact hihk e' h2
    · rw [if_neg he1] at he'
      rcases List.mem_cons.mp he' with h1 | h2
      · subst h1
        exact hg e' (List.mem_cons_self e' rest)
      · exact hihk e' h2

theorem GraphWF_goc {g : Graph} (n : String) (hg : GraphWF g) :
    GraphWF (getOrCreateNode g n) := by
  rw [getOrCreateNode]
  cases lookupAssoc g n with
  | some nd => exact hg
  | none =>
    intro e he
    rcases List.mem_append.mp he with h1 | h2
    · exact hg e h1
    · simp at h2
      subst h2
      simp [emptyNode]

theorem GraphWF_gocSt {st : St} (n : String) (hg : GraphWF st.graph) :
    GraphWF (gocSt st n).graph := GraphWF_goc n hg

theorem GraphWF_setPropSt {st : St} (n k : String) (v : Value) (hg : GraphWF st.graph) :
    GraphWF (setPropSt st n k v).graph :=
  GraphWF_updateNode n _ hg (fun _ h => h)

theorem GraphWF_removePropSt {st : St} (n k : String) (hg : GraphWF st.graph) :
    GraphWF (removePropSt st n k).graph :=
  GraphWF_updateNode n _ hg (fun _ h => h)

theorem GraphWF_addParentSt {st : St} (c p : String) (hg : GraphWF st.graph) :
    GraphWF (addParentSt st c p).graph :=
  GraphWF_updateNode c _ hg (fun nd h => nodup_addParent nd.parents p h)

theorem GraphWF_removeParentSt {st : St} (c p : String) (hg : GraphWF st.graph) :
    GraphWF (removeParentSt st c p).graph :=
  GraphWF_updateNode c _ hg (fun nd h => nodup_removeParent nd.parents p h)

theorem GraphWF_resolveNode {st : St} (n : String) (hg : GraphWF st.graph) :
    GraphWF (resolveNode st n).2.graph := by
  rw [resolveNode]
  cases h : lookupAssoc st.context n with
  | none => exact GraphWF_gocSt n hg
  | some v =>
    cases v with
    | node m => exact hg
    | num q => exact GraphWF_gocSt n hg
    | str s_ => exact GraphWF_gocSt n hg
    | bool b => exact GraphWF_gocSt n hg
    | null => exact GraphWF_gocSt n hg
    | strSet l => exact GraphWF_gocSt n hg
    | stmts l => exact GraphWF_gocSt n hg
    | nodes l => exact GraphWF_gocSt n hg
    | roles l => exact GraphWF_gocSt n hg

theorem executeIs_wf (s : String) (args : List Lit) (st : St) (hg : GraphWF st.graph) :
    ExecWF (executeIs s args st) := by
  rw [executeIs]
  cases args.head? with
  | none => exact hg
  | some objName =>
    exact GraphWF_addParentSt _ _ (GraphWF_resolveNode _ hg)

theorem executeHas_wf (s : String) (args : List Lit) (st : St) (hg : GraphWF st.graph) :
    ExecWF (executeHas s args st) := by
  rw [executeHas]
  cases args.head? with
  | none => exact hg
  | some propName => exact GraphWF_setPropSt _ _ _ hg

theorem executePrint_wf (fuel : Nat) (s : String) (st : St) (hg : GraphWF st.graph) :
    ExecWF (executePrint fuel s st) := by
  rw [executePrint]
  cases getProperty st.graph fuel s "Name" with
  | none => trivial
  | some v =>
    by_cases hv : isNullV v
    · simp only [hv, if_true]; exact hg
    · simp only [hv, Bool.false_eq_true, if_false]; exact hg

theorem executeHasExpression_wf (rng : Nat → ℚ) (fuel : Nat) (s p : String)
    (ve : Expr) (st : St) (hg : GraphWF st.graph) :
    ExecWF (executeHasExpression rng fuel s p ve st) := by
  rw [executeHasExpression]
  have h2 := GraphWF_resolveNode s hg
  cases evalE rng fuel ve (resolveNode st s).2 with
  | timeout => trivial
  | err e r => exact h2
  | ok v r => exact GraphWF_setPropSt _ _ _ h2

theorem executeExpressionPrint_wf (rng : Nat → ℚ) (fuel : Nat) (e : Expr) (st : St)
    (hg : GraphWF st.graph) : ExecWF (executeExpressionPrint rng fuel e st) := by
  rw [executeExpressionPrint]
  cases evalE rng fuel e st with
  | timeout => trivial
  | err er r => exact hg
  | ok v r =>
    simp only
    cases v with
    | node n =>
      simp only
      cases getProperty (withRix st r).graph fuel n "Name" with
      | none => trivial
      | some nv =>
        by_cases hv : isNullV nv
        · simp only [hv, if_true]; exact hg
        · simp only [hv, Bool.false_eq_true, if_false]; exact hg
    | num q => exact hg
    | str s_ => exact hg
    | bool b => exact hg
    | null => exact hg
    | strSet l => exact hg
    | stmts l => exact hg
    | nodes l => exact hg
    | roles l => exact hg

theorem executeExpressionHas_wf (rng : Nat → ℚ) (fuel : Nat) (subjE : Expr)
    (p : String) (lv : Option Lit) (ve : Option Expr) (st : St)
    (hg : GraphWF st.graph) : ExecWF (executeExpressionHas rng fuel subjE p lv ve st) := by
  rw [executeExpressionHas]
  cases evalE rng fuel subjE st with
  | timeout => trivial
  | err e r => exact hg
  | ok sv r =>
    simp only
    cases sv with
    | node n =>
      simp only
      cases ve with
      | some e2 =>
        simp only
        cases evalE rng fuel e2 (withRix st r) with
        | timeout => trivial
        | err er r2 => exact hg
        | ok v r2 => exact GraphWF_setPropSt _ _ _ hg
      | none => exact GraphWF_setPropSt _ _ _ hg
    | num q => exact hg
    | str s_ => exact hg
    | bool b => exact hg
    | null => exact hg
    | strSet l => exact hg
    | stmts l => exact hg
    | nodes l => exact hg
    | roles l => exact hg

theorem executeRoleDefinition_wf (fuel : Nat) (s roleName : String) (st : St)
    (hg : GraphWF st.graph) : ExecWF (executeRoleDefinition fuel s roleName st) := by
  rw [executeRoleDefinition]
  have h1 := GraphWF_gocSt s hg
  cases getPropertyOwner (gocSt st s).graph fuel s "_Roles" with
  | none => trivial
  | some res =>
    cases res with
    | none => exact GraphWF_setPropSt _ _ _ h1
    | some ov =>
      obtain ⟨owner, v⟩ := ov
      cases v with
      | roles l =>
        by_cases hr : roleName ∈ l
        · simp only [hr, if_true]; exact h1
        · simp only [hr, Bool.false_eq_true, if_false]; exact GraphWF_setPropSt _ _ _ h1
      | null => exact GraphWF_setPropSt _ _ _ h1
      | num q => exact h1
      | str s_ => exact h1
      | bool b => exact h1
      | node n => exact h1
      | strSet l => exact h1
      | stmts l => exact h1
      | nodes l => exact h1

theorem executeCan_wf (fuel : Nat) (s a : String) (st : St) (hg : GraphWF st.graph) :
    ExecWF (executeCan fuel s a st) := by
  rw [executeCan]
  have h1 := GraphWF_resolveNode s hg
  cases getPropertyOwner (resolveNode st s).2.graph fuel (resolveNode st s).1 "_Abilities" with
  | none => trivial
  | some res =>
    cases res with
    | none => exact GraphWF_setPropSt _ _ _ h1
    | some ov =>
      obtain ⟨owner, v⟩ := ov
      cases v with
      | strSet l => exact GraphWF_setPropSt _ _ _ h1
      | null => exact GraphWF_setPropSt _ _ _ h1
      | num q => exact h1
      | str s_ => exact h1
      | bool b => exact h1
      | node n => exact h1
      | roles l => exact h1
      | stmts l => exact h1
      | nodes l => exact h1

theorem losesProp_wf (s t : String) (st : St) (hg : GraphWF st.graph) :
    ExecWF (losesProp s t st) := by
  rw [losesProp]
  cases lookupAssoc st.graph s with
  | none => exact hg
  | some nd =>
    by_cases hp : (lookupAssoc nd.props t).isSome
    · simp only [hp, if_true]; exact GraphWF_removePropSt _ _ hg
    · simp only [hp, Bool.false_eq_true, if_false]; exact hg

theorem executeLoses_wf (fuel : Nat) (s t : String) (ty : LosesType) (st : St)
    (hg : GraphWF st.graph) : ExecWF (executeLoses fuel s t ty st) := by
  unfold executeLoses
  have h1 := GraphWF_resolveNode s hg
  cases ty with
  | isTy =>
    simp only
    cases resolveNodeOrNull (resolveNode st s).2 t with
    | none => exact h1
    | some p => exact GraphWF_removeParentSt _ _ h1
  | auto =>
    simp only
    cases getPropertyOwner (resolveNode st s).2.graph fuel (resolveNode st s).1 "_Abilities" with
    | none => trivial
    | some res =>
      cases res with
      | none => exact losesProp_wf _ _ _ h1
      | some ov =>
        obtain ⟨owner, v⟩ := ov
        cases v with
        | strSet l =>
          by_cases ht : t ∈ l
          · simp only [ht, if_true]; exact GraphWF_setPropSt _ _ _ h1
          · simp only [ht, Bool.false_eq_true, if_false]; exact losesProp_wf _ _ _ h1
        | null => exact losesProp_wf _ _ _ h1
        | num q => exact h1
        | str s_ => exact h1
        | bool b => exact h1
        | node n => exact h1
        | roles l => exact h1
        | stmts l => exact h1
        | nodes l => exact h1

theorem executeDoBlock_wf (s : String) (body : List Stmt) (st : St)
    (hg : GraphWF st.graph) : ExecWF (executeDoBlock s body st) :=
  GraphWF_setPropSt _ _ _ (GraphWF_resolveNode s hg)

theorem foldl_graph_invariant {α : Type} (g : St → α → St)
    (hgr : ∀ acc e, (g acc e).graph = acc.graph) (l : List α) :
    ∀ st : St, (l.foldl g st).graph = st.graph := by
  induction l with
  | nil => intro st; rfl
  | cons e rest ih =>
    intro st
    rw [List.foldl_cons, ih, hgr]

theorem pushOutput_graph (st : St) (s : String) : (pushOutput st s).graph = st.graph := rfl

theorem foldl_pushOutput_graph2 {α : Type} (f : α → String) (l : List α) (st : St) :
    (l.foldl (fun acc e => pushOutput acc (f e)) st).graph = st.graph :=
  foldl_graph_invariant (fun acc e => pushOutput acc (f e)) (fun _ _ => rfl) l st

theorem ExecWF_ok_of_graph_eq {st2 : St} {g : Graph} (h : st2.graph = g)
    (hg : GraphWF g) : ExecWF (ExecR.ok st2) := by
  show GraphWF st2.graph
  rw [h]
  exact hg

theorem dumpGraph_graph (fuel : Nat) (st : St) : (dumpGraph fuel st).graph = st.graph := by
  rw [dumpGraph]
  split
  · rfl
  · simp only [pushOutput_graph, foldl_pushOutput_graph2]

theorem executeDebug_wf (fuel : Nat) (t : DebugTarget) (st : St)
    (hg : GraphWF st.graph) : ExecWF (executeDebug fuel t st) := by
  cases t with
  | graph =>
    rw [executeDebug]
    show GraphWF (dumpGraph fuel st).graph
    rw [dumpGraph_graph]
    exact hg
  | tokens => exact hg
  | ast => exact hg

theorem filterByWhereCondition_graph (rng : Nat → ℚ) (fuel : Nat) (varName : String)
    (wc : Expr) (nodes : List String) :
    ∀ st ms st', filterByWhereCondition rng fuel varName wc nodes st = some (ms, st') →
      st'.graph = st.graph := by
  induction nodes with
  | nil =>
    intro st ms st' h
    rw [filterByWhereCondition] at h
    simp only [Option.some.injEq, Prod.mk.injEq] at h
    rw [← h.2]
  | cons n ns ih =>
    intro st ms st' h
    rw [filterByWhereCondition] at h
    cases hev : evalE rng fuel wc (setCtx st varName (.node n)) with
    | timeout => rw [hev] at h; simp at h
    | ok v r =>
      rw [hev] at h
      simp only at h
      cases hrec : filterByWhereCondition rng fuel varName wc ns
          (delCtx (withRix (setCtx st varName (.node n)) r) varName) with
      | none => rw [hrec] at h; simp at h
      | some p =>
        rw [hrec] at h
        simp only [Option.some.injEq] at h
        have h2 : p.2 = st' := congrArg Prod.snd h
        have h3 := ih _ _ _ hrec
        rw [← h2, h3]
        rfl
    | err er r =>
      rw [hev] at h
      simp only at h
      rw [ih _ _ _ h]
      rfl

theorem executeQuery_wf (rng : Nat → ℚ) (fuel : Nat) (pat : QueryPattern)
    (relation : String) (target : Option String) (targetValue : Option Lit)
    (whereCondition : Option Expr) (st : St) (hg : GraphWF st.graph) :
    ExecWF (executeQuery rng fuel pat relation target targetValue whereCondition st) := by
  rw [executeQuery]
  cases findMatchingNodes fuel st.graph relation target targetValue with
  | none => trivial
  | some ms0 =>
    simp only
    cases hstep : (match whereCondition with
      | none => some (ms0, st)
      | some wc => filterByWhereCondition rng fuel (queryVarName pat) wc ms0 st) with
    | none => simp only [hstep]; trivial
    | some p =>
      obtain ⟨ms, st1⟩ := p
      simp only [hstep]
      have hg1 : GraphWF st1.graph := by
        cases hwc : whereCondition with
        | none =>
          rw [hwc] at hstep
          simp only [Option.some.injEq, Prod.mk.injEq] at hstep
          rw [← hstep.2]
          exact hg
        | some wc =>
          rw [hwc] at hstep
          simp only at hstep
          rw [filterByWhereCondition_graph rng fuel _ wc ms0 st ms st1 hstep]
          exact hg
      cases pat.isWildcard with
      | false =>
        cases pat.variableName with
        | some varName =>
          simp only
          have hgq := GraphWF_setPropSt varName "_Items" (Value.nodes ms)
            (GraphWF_addParentSt varName "QueryResult"
              (GraphWF_gocSt "QueryResult" (GraphWF_gocSt varName hg1)))
          refine ExecWF_ok_of_graph_eq ?_ hgq
          simp only [foldl_pushOutput_graph2, pushOutput_graph]
        | none =>
          simp only
          refine ExecWF_ok_of_graph_eq ?_ hg1
          simp only [foldl_pushOutput_graph2, pushOutput_graph]
      | true =>
        cases pat.variableName with
        | some varName =>
          simp only
          refine ExecWF_ok_of_graph_eq ?_ hg1
          simp only [foldl_pushOutput_graph2, pushOutput_graph]
        | none =>
          simp only
          refine ExecWF_ok_of_graph_eq ?_ hg1
          simp only [foldl_pushOutput_graph2, pushOutput_graph]

theorem bindRoles_wf (l : List (String × Lit)) :
    ∀ st : St, GraphWF st.graph → GraphWF (bindRoles l st).graph := by
  induction l with
  | nil => intro st hg; exact hg
  | cons e rest ih =>
    intro st hg
    rw [bindRoles]
    by_cases hname : litToName e.2 = ""
    · obtain ⟨role, arg⟩ := e
      simp only at hname
      simp only [hname, if_true]
      exact ih st hg
    · obtain ⟨role, arg⟩ := e
      simp only at hname
      simp only [hname, if_false]
      exact ih _ (GraphWF_gocSt _ hg)

theorem foldl_delCtx_graph (roles : List String) :
    ∀ st : St, (roles.foldl delCtx st).graph = st.graph := by
  induction roles with
  | nil => intro st; rfl
  | cons r rs ih =>
    intro st
    rw [List.foldl_cons, ih]
    rfl

theorem ExecWF_restore (restore : St → St)
    (hres : ∀ s, (restore s).graph = s.graph) :
    ∀ inner : ExecR, ExecWF inner →
    ExecWF (match inner with
      | .ok s => .ok (restore s)
      | .err e s => .err e (restore s)
      | .timeout => .timeout) := by
  intro inner hin
  cases inner with
  | ok s =>
    show GraphWF (restore s).graph
    rw [hres]
    exact hin
  | err e s =>
    show GraphWF (restore s).graph
    rw [hres]
    exact hin
  | timeout => exact trivial

theorem whenInner_wf (rng : Nat → ℚ) (fuel : Nat) (condition : Expr)
    (body : List Stmt) (elseBody : Option (List Stmt)) (elseWhen : Option WhenExpr)
    (st2 : St) (hg : GraphWF st2.graph)
    (ihE : ∀ stmts st, GraphWF st.graph → ExecWF (execute rng fuel stmts st))
    (ihW : ∀ w st, GraphWF st.graph → ExecWF (executeWhenExpression rng fuel w st)) :
    ExecWF (match evalE rng fuel condition st2 with
      | .timeout => .timeout
      | .err e r => .err e (withRix st2 r)
      | .ok v r =>
        if isTruthy v then execute rng fuel body (withRix st2 r)
        else
          match elseWhen with
          | some w => executeWhenExpression rng fuel w (withRix st2 r)
          | none =>
            match elseBody with
            | some eb => execute rng fuel eb (withRix st2 r)
            | none => .ok (withRix st2 r)) := by
  cases hev : evalE rng fuel condition st2 with
  | timeout => exact trivial
  | err e r => exact hg
  | ok v r =>
    simp only
    by_cases ht : isTruthy v = true
    · rw [if_pos ht]
      exact ihE body _ hg
    · rw [if_neg ht]
      cases elseWhen with
      | some w => exact ihW w _ hg
      | none =>
        cases elseBody with
        | some eb => exact ihE eb _ hg
        | none => exact hg

theorem execAll_wf (rng : Nat → ℚ) : ∀ fuel : Nat,
    (∀ stmts st, GraphWF st.graph → ExecWF (execute rng fuel stmts st)) ∧
    (∀ stmt st, GraphWF st.graph → ExecWF (executeStatement rng fuel stmt st)) ∧
    (∀ s rel args st, GraphWF st.graph → ExecWF (executeRelation rng fuel s rel args st)) ∧
    (∀ s rel args st, GraphWF st.graph → ExecWF (executeCustomRelation rng fuel s rel args st)) ∧
    (∀ cond body st, GraphWF st.graph → ExecWF (executeWhen rng fuel cond body st)) ∧
    (∀ w st, GraphWF st.graph → ExecWF (executeWhenExpression rng fuel w st)) ∧
    (∀ pe body eb st, GraphWF st.graph → ExecWF (executeChance rng fuel pe body eb st)) ∧
    (∀ t qv act st, GraphWF st.graph → ExecWF (executeAll rng fuel t qv act st)) ∧
    (∀ t qv act ms st, GraphWF st.graph → ExecWF (executeAllCont rng fuel t qv act ms st)) ∧
    (∀ ms act st, GraphWF st.graph → ExecWF (executeAllLoop rng fuel ms act st)) ∧
    (∀ n act st, GraphWF st.graph → ExecWF (executeActionOnNode rng fuel n act st)) ∧
    (∀ c v body st, GraphWF st.graph → ExecWF (executeEach rng fuel c v body st)) ∧
    (∀ cs v body st, GraphWF st.graph → ExecWF (executeEachLoop rng fuel cs v body st)) := by
  intro fuel
  induction fuel with
  | zero =>
    exact ⟨fun _ _ _ => trivial, fun _ _ _ => trivial, fun _ _ _ _ _ => trivial,
      fun _ _ _ _ _ => trivial, fun _ _ _ _ => trivial, fun _ _ _ => trivial,
      fun _ _ _ _ _ => trivial, fun _ _ _ _ _ => trivial, fun _ _ _ _ _ _ => trivial,
      fun _ _ _ _ => trivial, fun _ _ _ _ => trivial, fun _ _ _ _ _ => trivial,
      fun _ _ _ _ _ => trivial⟩
  | succ fuel ih =>
    obtain ⟨ihExec, ihStmt, ihRel, ihCustom, ihWhen, ihWhenE, ihChance, ihAll,
      ihAllCont, ihAllLoop, ihAction, ihEach, ihEachLoop⟩ := ih
    refine ⟨?_, ?_, ?_, ?_, ?_, ?_, ?_, ?_, ?_, ?_, ?_, ?_, ?_⟩
    -- execute
    · intro stmts st hg
      cases stmts with
      | nil => exact hg
      | cons stmt rest =>
        rw [execute]
        cases hs : executeStatement rng fuel stmt st with
        | ok st1 =>
          simp only
          have h1 := ihStmt stmt st hg
          rw [hs] at h1
          exact ihExec rest st1 h1
        | err e st1 =>
          have h1 := ihStmt stmt st hg
          rw [hs] at h1
          exact h1
        | timeout => exact trivial
    -- executeStatement
    · intro stmt st hg
      cases stmt with
      | relation s rel args => exact ihRel s rel args st hg
      | hasExpression s p ve => exact executeHasExpression_wf rng fuel s p ve st hg
      | roleDefinition s roleName => exact executeRoleDefinition_wf fuel s roleName st hg
      | doBlock s body => exact executeDoBlock_wf s body st hg
      | can s a => exact executeCan_wf fuel s a st hg
      | loses s t ty => exact executeLoses_wf fuel s t ty st hg
      | debug t => exact executeDebug_wf fuel t st hg
      | whenStmt cond body => exact ihWhen cond body st hg
      | whenExpression w => exact ihWhenE w st hg
      | all t qv act => exact ihAll t qv act st hg
      | each c v body => exact ihEach c v body st hg
      | query pat rel target tv wc => exact executeQuery_wf rng fuel pat rel target tv wc st hg
      | expressionPrint e => exact executeExpressionPrint_wf rng fuel e st hg
      | expressionHas e p lv ve => exact executeExpressionHas_wf rng fuel e p lv ve st hg
      | chance pe body eb => exact ihChance pe body eb st hg
    -- executeRelation
    · intro s rel args st hg
      rw [executeRelation]
      have hg2 := GraphWF_resolveNode s hg
      by_cases h1 : upperEq rel "IS" = true
      · rw [if_pos h1]
        exact executeIs_wf _ args _ hg2
      · rw [if_neg h1]
        by_cases h2 : upperEq rel "HAS" = true
        · rw [if_pos h2]
          exact executeHas_wf _ args _ hg2
        · rw [if_neg h2]
          by_cases h3 : upperEq rel "PRINT" = true
          · rw [if_pos h3]
            exact executePrint_wf fuel _ _ hg2
          · rw [if_neg h3]
            exact ihCustom _ rel args _ hg2
    -- executeCustomRelation
    · intro s rel args st hg
      rw [executeCustomRelation]
      cases hrel : lookupAssoc st.graph rel with
      | none =>
        simp only
        by_cases hl : 0 < args.length
        · rw [if_pos hl]
          exact GraphWF_setPropSt _ _ _ (GraphWF_gocSt _ hg)
        · rw [if_neg hl]
          exact hg
      | some nd =>
        simp only
        cases hIs : nodeIs st.graph fuel rel "RELATION" with
        | none => exact trivial
        | some b =>
          cases b with
          | false => exact hg
          | true =>
            simp only
            cases hBody : getProperty st.graph fuel rel "_DoBody" with
            | none => exact trivial
            | some v =>
              cases v
              case stmts doBody =>
                simp only
                cases hRoles : getProperty st.graph fuel rel "_Roles" with
                | none => exact trivial
                | some rv =>
                  cases rv
                  case roles rl =>
                    cases rl with
                    | nil => exact ihExec doBody st hg
                    | cons r0 rs =>
                      simp only
                      have hg2 : GraphWF (bindRoles (rs.zip args)
                          (setCtx st r0 (.node s))).graph :=
                        bindRoles_wf _ _ hg
                      cases hex : execute rng fuel doBody
                          (bindRoles (rs.zip args) (setCtx st r0 (.node s))) with
                      | ok st3 =>
                        simp only
                        have h1 := ihExec doBody _ hg2
                        rw [hex] at h1
                        show GraphWF ((r0 :: rs).foldl delCtx st3).graph
                        rw [foldl_delCtx_graph]
                        exact h1
                      | err e st3 =>
                        have h1 := ihExec doBody _ hg2
                        rw [hex] at h1
                        exact h1
                      | timeout => exact trivial
                  all_goals exact ihExec doBody st hg
              case null => exact hg
              all_goals exact hg
    -- executeWhen
    · intro cond body st hg
      rw [executeWhen]
      cases hc : evaluateCondition fuel st.graph cond with
      | none => exact trivial
      | some b =>
        cases b with
        | true => exact ihExec body st hg
        | false => exact hg
    -- executeWhenExpression
    · intro w st hg
      obtain ⟨subject, condition, body, elseBody, elseWhen⟩ := w
      rw [executeWhenExpression]
      cases hsubv : lookupAssoc st.graph subject with
      | none =>
        refine ExecWF_restore _ ?_ _ ?_
        · intro s
          rfl
        · cases elseWhen with
          | some w2 =>
            refine whenInner_wf rng fuel condition body elseBody (some w2) _ ?_ ihExec ihWhenE
            exact hg
          | none =>
            cases elseBody with
            | some eb =>
              refine whenInner_wf rng fuel condition body (some eb) none _ ?_ ihExec ihWhenE
              exact hg
            | none =>
              refine whenInner_wf rng fuel condition body none none _ ?_ ihExec ihWhenE
              exact hg
      | some nd =>
        refine ExecWF_restore _ ?_ _ ?_
        · intro s
          rfl
        · cases elseWhen with
          | some w2 =>
            refine whenInner_wf rng fuel condition body elseBody (some w2) _ ?_ ihExec ihWhenE
            exact hg
          | none =>
            cases elseBody with
            | some eb =>
              refine whenInner_wf rng fuel condition body (some eb) none _ ?_ ihExec ihWhenE
              exact hg
            | none =>
              refine whenInner_wf rng fuel condition body none none _ ?_ ihExec ihWhenE
              exact hg
    -- executeChance
    · intro pe body eb st hg
      rw [executeChance]
      cases hev : evalE rng fuel pe st with
      | timeout => exact trivial
      | err e r => exact hg
      | ok pv r =>
        simp only
        cases htn : toNumber pv with
        | error e => exact hg
        | ok percent =>
          simp only
          by_cases hlt : ((Rat.floor (rng r * 100) : ℚ) < percent)
          · rw [if_pos hlt]
            exact ihExec body _ hg
          · rw [if_neg hlt]
            cases eb with
            | some ebody => exact ihExec ebody _ hg
            | none => exact hg
    -- executeAll
    · intro t qv act st hg
      cases qv with
      | some v =>
        rw [executeAll]
        cases hq : getQueryResults fuel st.graph v with
        | none => exact trivial
        | some ms =>
          simp only
          by_cases hlen : ms.length = 0
          · rw [if_pos hlen]
            exact hg
          · rw [if_neg hlen]
            exact ihAllCont t _ act ms st hg
      | none =>
        rw [executeAll]
        cases hf : filterIsNodes fuel st.graph t st.graph with
        | none => exact trivial
        | some ms => exact ihAllCont t none act ms st hg
    -- executeAllCont
    · intro t qv act ms st hg
      cases act with
      | none => exact hg
      | some a => exact ihAllLoop ms a st hg
    -- executeAllLoop
    · intro ms act st hg
      cases ms with
      | nil => exact hg
      | cons n ns =>
        rw [executeAllLoop]
        cases hact : executeActionOnNode rng fuel n act st with
        | ok st1 =>
          simp only
          have h1 := ihAction n act st hg
          rw [hact] at h1
          exact ihAllLoop ns act st1 h1
        | err e st1 =>
          have h1 := ihAction n act st hg
          rw [hact] at h1
          exact h1
        | timeout => exact trivial
    -- executeActionOnNode
    · intro n act st hg
      cases act
      case relation s rel args => exact ihRel n rel args st hg
      all_goals exact hg
    -- executeEach
    · intro c v body st hg
      rw [executeEach]
      cases hl : lookupAssoc st.graph c with
      | none => exact hg
      | some nd =>
        simp only
        exact ihEachLoop _ v body st hg
    -- executeEachLoop
    · intro cs v body st hg
      cases cs with
      | nil => exact hg
      | cons ch rest =>
        rw [executeEachLoop]
        cases hex : execute rng fuel body (setCtx st v (.node ch)) with
        | ok st1 =>
          simp only
          have h1 := ihExec body (setCtx st v (.node ch)) hg
          rw [hex] at h1
          exact ihEachLoop rest v body (delCtx st1 v) h1
        | err e st1 =>
          have h1 := ihExec body (setCtx st v (.node ch)) hg
          rw [hex] at h1
          exact h1
        | timeout => exact trivial

/-- C9: executing statements preserves the invariant that every node's
parents list is duplicate-free (order is whatever insertion produced, since
addParent only ever appends at the end), and addParent is idempotent: a
second `IS T` on the same subject leaves the parents list unchanged. -/
theorem parents_nodup_invariant :
    (∀ (rng : Nat → ℚ) (fuel : Nat) (stmts : List Stmt) (st : St),
      GraphWF st.graph → ExecWF (execute rng fuel stmts st)) ∧
    (∀ (parents : List String) (p : String),
      addParent (addParent parents p) p = addParent parents p) := by
  constructor
  · intro rng fuel stmts st hg
    exact (execAll_wf rng fuel).1 stmts st hg
  · intro parents p
    have hmem : p ∈ addParent parents p := by
      rw [addParent]
      by_cases h : p ∈ parents
      · rw [if_pos h]
        exact h
      · rw [if_neg h]
        exact List.mem_append_right _ (List.mem_singleton_self p)
    nth_rewrite 1 [addParent]
    rw [if_pos hmem]

/-- Witness for `parents_nodup_invariant`: a fresh interpreter state is
well-formed, running `X IS Y` preserves well-formedness, and a repeated
addParent of "T" on an empty parents list is a no-op. -/
theorem parents_nodup_invariant_witness :
    (GraphWF initSt.graph ∧
      ExecWF (execute rng0 5 [Stmt.relation "X" "IS" [Lit.s "Y"]] initSt)) ∧
    addParent (addParent [] "T") "T" = addParent [] "T" := by
  have hg : GraphWF initSt.graph := by
    intro e he
    cases he
  exact ⟨⟨hg, parents_nodup_invariant.1 rng0 5 [Stmt.relation "X" "IS" [Lit.s "Y"]] initSt hg⟩,
    parents_nodup_invariant.2 [] "T"⟩

end SongLang